import Mathlib

/-!
Verification of the file-to-graph synchronization engine of basic-memory.

The development shallowly embeds the Entity Store of
`src/basic_memory/repository/entity_repository.py` (the authoritative source
for the upsert primitives), together with the permalink generator and the
sync coordinator's move handling, which are modelled from the specification
because their source files are not part of the provided tree.

Machine state is a relational store of entity rows plus observation and
relation rows; fallible operations return `Except Err`.  An error result
models a raised Python exception: the surrounding session scope rolls the
transaction back, so an error leaves the persisted store unchanged.
-/

namespace BasicMemory

/-! ## Permalink generator (modelled from the spec, section 4.1) -/

/-- Modelled from the spec: transliteration table sending Latin-script
letters bearing diacritics to their base ASCII letter ("É" to "E",
"ü" to "u"); source file `basic_memory/utils.py` is not in the tree. -/
def translitTable : List (Char × Char) :=
  [('á', 'a'), ('à', 'a'), ('â', 'a'), ('ä', 'a'), ('ã', 'a'), ('å', 'a'),
   ('é', 'e'), ('è', 'e'), ('ê', 'e'), ('ë', 'e'),
   ('í', 'i'), ('ì', 'i'), ('î', 'i'), ('ï', 'i'),
   ('ó', 'o'), ('ò', 'o'), ('ô', 'o'), ('ö', 'o'), ('õ', 'o'), ('ø', 'o'), ('ō', 'o'),
   ('ú', 'u'), ('ù', 'u'), ('û', 'u'), ('ü', 'u'), ('ū', 'u'),
   ('ç', 'c'), ('ñ', 'n'), ('ý', 'y'), ('ÿ', 'y'),
   ('Á', 'A'), ('À', 'A'), ('Â', 'A'), ('Ä', 'A'), ('Ã', 'A'), ('Å', 'A'),
   ('É', 'E'), ('È', 'E'), ('Ê', 'E'), ('Ë', 'E'),
   ('Í', 'I'), ('Ì', 'I'), ('Î', 'I'), ('Ï', 'I'),
   ('Ó', 'O'), ('Ò', 'O'), ('Ô', 'O'), ('Ö', 'O'), ('Õ', 'O'), ('Ø', 'O'), ('Ō', 'O'),
   ('Ú', 'U'), ('Ù', 'U'), ('Û', 'U'), ('Ü', 'U'), ('Ū', 'U'),
   ('Ç', 'C'), ('Ñ', 'N'), ('Ý', 'Y')]

def transliterate (c : Char) : Char :=
  ((translitTable.find? (fun p => p.1 == c)).map (fun p => p.2)).getD c

/-- Lookup table realizing ASCII lowercasing of the 26 upper-case letters. -/
def lowerTable : List (Char × Char) :=
  [('A', 'a'), ('B', 'b'), ('C', 'c'), ('D', 'd'), ('E', 'e'), ('F', 'f'),
   ('G', 'g'), ('H', 'h'), ('I', 'i'), ('J', 'j'), ('K', 'k'), ('L', 'l'),
   ('M', 'm'), ('N', 'n'), ('O', 'o'), ('P', 'p'), ('Q', 'q'), ('R', 'r'),
   ('S', 's'), ('T', 't'), ('U', 'u'), ('V', 'v'), ('W', 'w'), ('X', 'x'),
   ('Y', 'y'), ('Z', 'z')]

/-- A character is an ASCII upper-case letter exactly when it is a key of
`lowerTable`. -/
def isUpper (c : Char) : Bool :=
  (lowerTable.find? (fun p => p.1 == c)).isSome

def toLowerAscii (c : Char) : Char :=
  ((lowerTable.find? (fun p => p.1 == c)).map (fun p => p.2)).getD c

def isLowerAlpha (c : Char) : Bool :=
  97 ≤ c.toNat && c.toNat ≤ 122

def isDigit (c : Char) : Bool :=
  48 ≤ c.toNat && c.toNat ≤ 57

/-- Modelled from the spec: "CJK and similar ranges are preserved verbatim".
We model the preserved range as the CJK Unified Ideographs block. -/
def isCJK (c : Char) : Bool :=
  0x4E00 ≤ c.toNat && c.toNat ≤ 0x9FFF

/-- Characters kept by the permalink generator (before lowercasing). -/
def isKeep (c : Char) : Bool :=
  isLowerAlpha c || isUpper c || isDigit c || isCJK c

/-- Characters treated as separators: whitespace, underscores and hyphens. -/
def isHyph (c : Char) : Bool :=
  c == ' ' || c == '\t' || c == '\n' || c == '\r' || c == '_' || c == '-'

/-- Per-character classification: kept characters survive, separator runs
become hyphens, everything else (punctuation, symbols) is stripped. -/
def classify (c : Char) : Option Char :=
  if isKeep c then some c else if isHyph c then some '-' else none

/-- Hyphen inserted between adjacent kept characters at a CJK/Latin script
boundary (spec section 4.1 edge case) or at a lower-to-upper camel-case
boundary (pinned by the repository's permalink tests). -/
def isBoundary (a b : Char) : Bool :=
  isKeep a && isKeep b && (isCJK a != isCJK b || (isLowerAlpha a && isUpper b))

def insertBoundaries : List Char → List Char
  | a :: b :: rest =>
    if isBoundary a b then a :: '-' :: insertBoundaries (b :: rest)
    else a :: insertBoundaries (b :: rest)
  | l => l

/-- Collapse runs of hyphens to a single hyphen. -/
def collapseHyphens : List Char → List Char
  | a :: b :: rest =>
    if a == '-' && b == '-' then collapseHyphens (b :: rest)
    else a :: collapseHyphens (b :: rest)
  | l => l

def trimLead (l : List Char) : List Char :=
  l.dropWhile (fun c => c == '-')

def trimHyphens (l : List Char) : List Char :=
  ((trimLead l).reverse.dropWhile (fun c => c == '-')).reverse

/-- One path segment of the permalink pipeline: transliterate, classify
(keep / separator / strip), insert script and camel boundaries, lowercase,
collapse hyphen runs, trim leading and trailing hyphens. -/
def processSegment (cs : List Char) : List Char :=
  trimHyphens (collapseHyphens
    ((insertBoundaries ((cs.map transliterate).filterMap classify)).map toLowerAscii))

/-- Split a character list on a separator character (mirror of
`str.split`): never returns an empty list of segments. -/
def splitOnChar (sep : Char) : List Char → List (List Char)
  | [] => [[]]
  | c :: cs =>
    let r := splitOnChar sep cs
    if c == sep then [] :: r
    else
      match r with
      | s :: ss => (c :: s) :: ss
      | [] => [[c]]

def intercalateChar (sep : Char) : List (List Char) → List Char
  | [] => []
  | [s] => s
  | s :: t :: ss => s ++ sep :: intercalateChar sep (t :: ss)

/-- Drop a trailing file extension from one segment: everything from the
last dot on is removed; a segment without a dot is unchanged. -/
def dropExtSeg (s : List Char) : List Char :=
  match s.reverse.dropWhile (fun c => c != '.') with
  | '.' :: rest => rest.reverse
  | _ => s

def modifyLast (f : List Char → List Char) : List (List Char) → List (List Char)
  | [] => []
  | [a] => [f a]
  | a :: b :: rest => a :: modifyLast f (b :: rest)

/-- Modelled from the spec: the pure permalink generator of
`basic_memory/utils.py` (not in the tree).  Splits on path separators,
drops the file extension of the final segment, normalizes each segment
(transliteration, lowercasing, separator runs to hyphens, punctuation
stripped, script and camel boundaries hyphenated, hyphens collapsed and
trimmed), drops segments that become empty, and rejoins with "/". -/
def permalinkChars (l : List Char) : List Char :=
  intercalateChar '/'
    (((modifyLast dropExtSeg (splitOnChar '/' l)).map processSegment).filter
      (fun s => !s.isEmpty))

def generate_permalink (p : String) : String :=
  String.mk (permalinkChars p.data)

example : generate_permalink "my_awesome_feature.md" = "my-awesome-feature" := by decide
example : generate_permalink "docs/中文 English Mixed.md" = "docs/中文-english-mixed" := by decide
example : generate_permalink "test/Über File.md" = "test/uber-file" := by decide
example : generate_permalink "mixed/北京Café.md" = "mixed/北京-cafe" := by decide
example : generate_permalink "projects/中文CamelCase测试.md" = "projects/中文-camel-case-测试" := by
  decide
example : generate_permalink "special/中文!@#$%^&*()_+.md" = "special/中文" := by decide
example : generate_permalink "MIXED_CASE_NAME.md" = "mixed-case-name" := by decide
example : generate_permalink "test/multiple_word_directory/feature_name.md"
    = "test/multiple-word-directory/feature-name" := by decide

/-! ### Character-class facts used by the idempotence proof -/

/-- Characters that can appear in generator output: lower-case ASCII
letters, digits, preserved CJK characters, and hyphens. -/
def outChar (c : Char) : Bool :=
  isLowerAlpha c || isDigit c || isCJK c || c == '-'

def NoDH (a b : Char) : Prop := ¬(a = '-' ∧ b = '-')

def NoBd (a b : Char) : Prop := isBoundary a b = false

/-- Invariant characterizing the per-segment outputs of the permalink
pipeline; the pipeline is the identity on segments satisfying it. -/
structure SegInv (s : List Char) : Prop where
  mem : ∀ c ∈ s, outChar c = true
  nodh : s.Chain' NoDH
  nobd : s.Chain' NoBd
  headOk : ∀ c, s.head? = some c → c ≠ '-'
  lastOk : ∀ c, s.getLast? = some c → c ≠ '-'

theorem translit_keys_range :
    ∀ p ∈ translitTable, 0xC0 ≤ p.1.toNat ∧ p.1.toNat ≤ 0x17D := by decide

theorem lower_keys_range :
    ∀ p ∈ lowerTable, 65 ≤ p.1.toNat ∧ p.1.toNat ≤ 90 := by decide

theorem lower_vals_lower :
    ∀ p ∈ lowerTable, isLowerAlpha p.2 = true ∧ isUpper p.2 = false ∧ isCJK p.2 = false := by
  decide

theorem outChar_ranges {c : Char} (h : outChar c = true) :
    (97 ≤ c.toNat ∧ c.toNat ≤ 122) ∨ (48 ≤ c.toNat ∧ c.toNat ≤ 57) ∨
    (0x4E00 ≤ c.toNat ∧ c.toNat ≤ 0x9FFF) ∨ c.toNat = 45 := by
  simp only [outChar, isLowerAlpha, isDigit, isCJK, Bool.or_eq_true, decide_eq_true_eq,
    Bool.and_eq_true, beq_iff_eq] at h
  rcases h with ((⟨h1, h2⟩ | ⟨h1, h2⟩) | ⟨h1, h2⟩) | rfl
  · exact Or.inl ⟨h1, h2⟩
  · exact Or.inr (Or.inl ⟨h1, h2⟩)
  · exact Or.inr (Or.inr (Or.inl ⟨h1, h2⟩))
  · exact Or.inr (Or.inr (Or.inr (by decide)))

theorem outChar_val {c : Char} (h : outChar c = true) :
    c.toNat < 0xC0 ∨ 0x4E00 ≤ c.toNat := by
  rcases outChar_ranges h with ⟨h1, h2⟩ | ⟨h1, h2⟩ | ⟨h1, h2⟩ | h1 <;> omega

theorem transliterate_eq_self {c : Char} (h : outChar c = true) :
    transliterate c = c := by
  have hfind : translitTable.find? (fun p => p.1 == c) = none := by
    rw [List.find?_eq_none]
    intro p hp
    have hr := translit_keys_range p hp
    rcases outChar_val h with hv | hv <;>
      · simp only [beq_iff_eq]
        intro he
        rw [he] at hr
        omega
  simp [transliterate, hfind]

theorem isUpper_eq_false_of_outChar {c : Char} (h : outChar c = true) :
    isUpper c = false := by
  by_contra hne
  have hu : isUpper c = true := by
    cases hh : isUpper c
    · exact absurd hh hne
    · rfl
  rw [isUpper, Option.isSome_iff_exists] at hu
  obtain ⟨p, hp⟩ := hu
  have hmem := List.mem_of_find?_eq_some hp
  have hpred := List.find?_some hp
  simp only [beq_iff_eq] at hpred
  have hr := lower_keys_range p hmem
  rw [hpred] at hr
  rcases outChar_ranges h with ⟨h1, h2⟩ | ⟨h1, h2⟩ | ⟨h1, h2⟩ | h1 <;> omega

theorem toLowerAscii_eq_self {c : Char} (h : isUpper c = false) :
    toLowerAscii c = c := by
  rw [isUpper] at h
  cases hf : lowerTable.find? (fun p => p.1 == c) with
  | none => simp [toLowerAscii, hf]
  | some p => rw [hf] at h; exact absurd h (by simp)

theorem keep_not_hyphen : isKeep '-' = false := by decide

theorem isUpper_toLowerAscii (c : Char) : isUpper (toLowerAscii c) = false := by
  cases hu : isUpper c
  · rw [toLowerAscii_eq_self hu]; exact hu
  · rw [isUpper, Option.isSome_iff_exists] at hu
    obtain ⟨p, hp⟩ := hu
    have hmem := List.mem_of_find?_eq_some hp
    have : toLowerAscii c = p.2 := by simp [toLowerAscii, hp]
    rw [this]
    exact (lower_vals_lower p hmem).2.1

theorem isCJK_toLowerAscii (c : Char) : isCJK (toLowerAscii c) = isCJK c := by
  cases hu : isUpper c
  · rw [toLowerAscii_eq_self hu]
  · rw [isUpper, Option.isSome_iff_exists] at hu
    obtain ⟨p, hp⟩ := hu
    have hmem := List.mem_of_find?_eq_some hp
    have hpred := List.find?_some hp
    simp only [beq_iff_eq] at hpred
    have : toLowerAscii c = p.2 := by simp [toLowerAscii, hp]
    rw [this, (lower_vals_lower p hmem).2.2]
    have hr := lower_keys_range p hmem
    rw [hpred] at hr
    have : isCJK c = false := by
      simp only [isCJK, Bool.and_eq_true, decide_eq_true_eq]
      simp only [Bool.and_eq_false_iff]
      left
      simp only [decide_eq_false_iff_not]
      omega
    rw [this]

theorem isKeep_toLowerAscii (c : Char) : isKeep (toLowerAscii c) = isKeep c := by
  cases hu : isUpper c
  · rw [toLowerAscii_eq_self hu]
  · rw [isUpper, Option.isSome_iff_exists] at hu
    obtain ⟨p, hp⟩ := hu
    have hmem := List.mem_of_find?_eq_some hp
    have hval : toLowerAscii c = p.2 := by simp [toLowerAscii, hp]
    have hcu : isUpper c = true := by
      rw [isUpper, hp]; rfl
    rw [hval]
    have h1 : isKeep p.2 = true := by
      simp only [isKeep, Bool.or_eq_true]
      exact Or.inl (Or.inl (Or.inl (lower_vals_lower p hmem).1))
    have h2 : isKeep c = true := by
      simp only [isKeep, Bool.or_eq_true]
      exact Or.inl (Or.inl (Or.inr hcu))
    rw [h1, h2]

theorem outChar_toLowerAscii {c : Char} (h : isKeep c = true ∨ c = '-') :
    outChar (toLowerAscii c) = true := by
  rcases h with h | rfl
  · cases hu : isUpper c
    · rw [toLowerAscii_eq_self hu]
      simp only [isKeep, Bool.or_eq_true] at h
      rcases h with ((h | h) | h) | h
      · simp [outChar, h]
      · rw [hu] at h; exact absurd h (by simp)
      · simp [outChar, h]
      · simp [outChar, h]
    · rw [isUpper, Option.isSome_iff_exists] at hu
      obtain ⟨p, hp⟩ := hu
      have hmem := List.mem_of_find?_eq_some hp
      have hval : toLowerAscii c = p.2 := by simp [toLowerAscii, hp]
      rw [hval]
      simp [outChar, (lower_vals_lower p hmem).1]
  · rw [toLowerAscii_eq_self (by decide)]
    simp [outChar]

/-! ### Pipeline-step lemmas -/

theorem map_eq_self_of_mem {α : Type} {f : α → α} :
    ∀ {l : List α}, (∀ c ∈ l, f c = c) → l.map f = l
  | [], _ => rfl
  | a :: l, h => by
    simp only [List.map_cons, List.cons.injEq]
    exact ⟨h a (by simp), map_eq_self_of_mem (fun c hc => h c (by simp [hc]))⟩

theorem filterMap_eq_self_of_mem {α : Type} {f : α → Option α} :
    ∀ {l : List α}, (∀ c ∈ l, f c = some c) → l.filterMap f = l
  | [], _ => rfl
  | a :: l, h => by
    rw [List.filterMap_cons, h a (by simp),
      filterMap_eq_self_of_mem (fun c hc => h c (by simp [hc]))]

theorem insertBoundaries_head? :
    ∀ (l : List Char), (insertBoundaries l).head? = l.head?
  | [] => rfl
  | [a] => rfl
  | a :: b :: rest => by
    rw [insertBoundaries]
    by_cases h : isBoundary a b = true <;> simp [h]

theorem mem_insertBoundaries {c : Char} :
    ∀ {l : List Char}, c ∈ insertBoundaries l → c ∈ l ∨ c = '-'
  | [], h => Or.inl h
  | [a], h => Or.inl h
  | a :: b :: rest, h => by
    rw [insertBoundaries] at h
    cases hb : isBoundary a b <;> rw [hb] at h
    · simp only [Bool.false_eq_true, if_false, List.mem_cons] at h
      rcases h with rfl | h
      · exact Or.inl (by simp)
      · rcases mem_insertBoundaries h with h | h
        · exact Or.inl (by simp [h])
        · exact Or.inr h
    · simp only [if_true, List.mem_cons] at h
      rcases h with rfl | rfl | h
      · exact Or.inl (by simp)
      · exact Or.inr rfl
      · rcases mem_insertBoundaries h with h | h
        · exact Or.inl (by simp [h])
        · exact Or.inr h

theorem chain'_insertBoundaries :
    ∀ (l : List Char), (insertBoundaries l).Chain' NoBd
  | [] => List.chain'_nil
  | [a] => List.chain'_singleton a
  | a :: b :: rest => by
    rw [insertBoundaries]
    have ih := chain'_insertBoundaries (b :: rest)
    have hhead : (insertBoundaries (b :: rest)).head? = some b := by
      rw [insertBoundaries_head?]; rfl
    cases h : isBoundary a b
    · simp only [Bool.false_eq_true, if_false]
      refine List.chain'_cons'.2 ⟨?_, ih⟩
      intro y hy
      rw [hhead] at hy
      simp only [Option.mem_def, Option.some.injEq] at hy
      subst hy
      exact h
    · simp only [if_true]
      refine List.chain'_cons'.2 ⟨?_, List.chain'_cons'.2 ⟨?_, ih⟩⟩
      · intro y hy
        simp only [List.head?_cons, Option.mem_def, Option.some.injEq] at hy
        subst hy
        simp [NoBd, isBoundary, keep_not_hyphen]
      · intro y hy
        rw [hhead] at hy
        simp only [Option.mem_def, Option.some.injEq] at hy
        subst hy
        simp [NoBd, isBoundary, keep_not_hyphen]

theorem insertBoundaries_eq_self :
    ∀ {l : List Char}, l.Chain' NoBd → insertBoundaries l = l
  | [], _ => rfl
  | [a], _ => rfl
  | a :: b :: rest, h => by
    have hab : NoBd a b := (List.chain'_cons.1 h).1
    rw [insertBoundaries, hab]
    simp only [Bool.false_eq_true, if_false, List.cons.injEq, true_and]
    exact insertBoundaries_eq_self (List.chain'_cons.1 h).2

theorem collapseHyphens_head? :
    ∀ (l : List Char), (collapseHyphens l).head? = l.head?
  | [] => rfl
  | [a] => rfl
  | a :: b :: rest => by
    rw [collapseHyphens]
    by_cases h : (a == '-' && b == '-') = true
    · simp only [h, if_true]
      rw [collapseHyphens_head? (b :: rest)]
      simp only [Bool.and_eq_true, beq_iff_eq] at h
      simp [h.1, h.2]
    · simp [h]

theorem mem_collapseHyphens {c : Char} :
    ∀ {l : List Char}, c ∈ collapseHyphens l → c ∈ l
  | [], h => h
  | [a], h => h
  | a :: b :: rest, h => by
    rw [collapseHyphens] at h
    by_cases hb : (a == '-' && b == '-') = true <;> simp only [hb, if_true, if_false] at h
    · exact List.mem_cons_of_mem a (mem_collapseHyphens h)
    · simp only [Bool.false_eq_true, if_false, List.mem_cons] at h
      rcases h with rfl | h
      · exact List.mem_cons_self c _
      · exact List.mem_cons_of_mem a (mem_collapseHyphens h)

theorem chain'_collapseHyphens {R : Char → Char → Prop} :
    ∀ {l : List Char}, l.Chain' R → (collapseHyphens l).Chain' R
  | [], h => h
  | [a], h => h
  | a :: b :: rest, h => by
    rw [collapseHyphens]
    have htail : (b :: rest).Chain' R := (List.chain'_cons.1 h).2
    by_cases hb : (a == '-' && b == '-') = true
    · simp only [hb, if_true]
      exact chain'_collapseHyphens htail
    · simp only [hb, Bool.false_eq_true, if_false]
      refine List.chain'_cons'.2 ⟨?_, chain'_collapseHyphens htail⟩
      intro y hy
      rw [collapseHyphens_head? (b :: rest)] at hy
      simp only [List.head?_cons, Option.mem_def, Option.some.injEq] at hy
      subst hy
      exact (List.chain'_cons.1 h).1

theorem collapseHyphens_nodh :
    ∀ (l : List Char), (collapseHyphens l).Chain' NoDH
  | [] => List.chain'_nil
  | [a] => List.chain'_singleton a
  | a :: b :: rest => by
    rw [collapseHyphens]
    by_cases hb : (a == '-' && b == '-') = true
    · simp only [hb, if_true]
      exact collapseHyphens_nodh (b :: rest)
    · simp only [hb, Bool.false_eq_true, if_false]
      refine List.chain'_cons'.2 ⟨?_, collapseHyphens_nodh (b :: rest)⟩
      intro y hy
      rw [collapseHyphens_head? (b :: rest)] at hy
      simp only [List.head?_cons, Option.mem_def, Option.some.injEq] at hy
      subst hy
      intro ⟨h1, h2⟩
      rw [h1, h2] at hb
      simp at hb

theorem collapseHyphens_eq_self :
    ∀ {l : List Char}, l.Chain' NoDH → collapseHyphens l = l
  | [], _ => rfl
  | [a], _ => rfl
  | a :: b :: rest, h => by
    have hab : NoDH a b := (List.chain'_cons.1 h).1
    rw [collapseHyphens]
    have hb : (a == '-' && b == '-') = false := by
      by_contra hne
      simp only [Bool.not_eq_false, Bool.and_eq_true, beq_iff_eq] at hne
      exact hab ⟨hne.1, hne.2⟩
    simp only [hb, Bool.false_eq_true, if_false, List.cons.injEq, true_and]
    exact collapseHyphens_eq_self (List.chain'_cons.1 h).2

theorem head?_dropWhile_not {α : Type} {p : α → Bool} :
    ∀ {l : List α} {c : α}, (l.dropWhile p).head? = some c → p c = false
  | [], c, h => by simp [List.dropWhile] at h
  | a :: l, c, h => by
    rw [List.dropWhile_cons] at h
    by_cases ha : p a = true
    · rw [if_pos ha] at h
      exact head?_dropWhile_not h
    · simp only [ha, Bool.false_eq_true, if_false, List.head?_cons, Option.some.injEq] at h
      subst h
      simp only [Bool.not_eq_true] at ha
      exact ha

theorem dropWhile_eq_self_of_head {α : Type} {p : α → Bool} {l : List α}
    (h : ∀ c, l.head? = some c → p c = false) : l.dropWhile p = l := by
  cases l with
  | nil => rfl
  | cons a l =>
    rw [List.dropWhile_cons, if_neg]
    rw [h a rfl]
    simp

theorem chain'_dropWhile {α : Type} {R : α → α → Prop} {p : α → Bool} {l : List α}
    (h : l.Chain' R) : (l.dropWhile p).Chain' R := by
  rw [← List.takeWhile_append_dropWhile p l] at h
  exact (List.chain'_append.1 h).2.1

theorem trimHyphens_eq_self {l : List Char}
    (hh : ∀ c, l.head? = some c → c ≠ '-') (hl : ∀ c, l.getLast? = some c → c ≠ '-') :
    trimHyphens l = l := by
  have h1 : l.dropWhile (fun c => c == '-') = l :=
    dropWhile_eq_self_of_head (fun c hc => by simp [hh c hc])
  have h2 : l.reverse.dropWhile (fun c => c == '-') = l.reverse :=
    dropWhile_eq_self_of_head (fun c hc => by
      rw [List.head?_reverse] at hc
      simp [hl c hc])
  rw [trimHyphens, trimLead, h1, h2, List.reverse_reverse]

theorem mem_trimHyphens {c : Char} {l : List Char} (h : c ∈ trimHyphens l) : c ∈ l := by
  rw [trimHyphens, trimLead, List.mem_reverse] at h
  have h1 := (List.dropWhile_sublist (l := (l.dropWhile (fun c => c == '-')).reverse)
    (fun c => c == '-')).mem h
  rw [List.mem_reverse] at h1
  exact (List.dropWhile_sublist (fun c => c == '-')).mem h1

theorem chain'_trimHyphens {R : Char → Char → Prop} {l : List Char}
    (h : l.Chain' R) : (trimHyphens l).Chain' R := by
  rw [trimHyphens]
  rw [List.chain'_reverse]
  refine chain'_dropWhile ?_
  rw [List.chain'_reverse]
  exact chain'_dropWhile h

theorem headOk_trimHyphens {l : List Char} :
    ∀ c, (trimHyphens l).head? = some c → c ≠ '-' := by
  intro c hc
  rw [trimHyphens, List.head?_reverse] at hc
  have hsplit := List.takeWhile_append_dropWhile (fun c => c == '-') ((trimLead l).reverse)
  have hne : (trimLead l).reverse.dropWhile (fun c => c == '-') ≠ [] := by
    intro he
    rw [he] at hc
    simp at hc
  have h2 : (trimLead l).reverse.getLast? = some c := by
    rw [← hsplit, List.getLast?_append_of_ne_nil _ hne]
    exact hc
  rw [List.getLast?_reverse, trimLead] at h2
  have h3 := head?_dropWhile_not h2
  simpa using h3

theorem lastOk_trimHyphens {l : List Char} :
    ∀ c, (trimHyphens l).getLast? = some c → c ≠ '-' := by
  intro c hc
  rw [trimHyphens, List.getLast?_reverse] at hc
  have := head?_dropWhile_not hc
  simpa using this

/-! ### The per-segment invariant holds of every pipeline output -/

theorem classify_some {a c : Char} (h : classify a = some c) :
    isKeep c = true ∨ c = '-' := by
  rw [classify] at h
  by_cases hk : isKeep a = true
  · rw [if_pos hk] at h
    cases h
    exact Or.inl hk
  · rw [if_neg hk] at h
    by_cases hh : isHyph a = true
    · rw [if_pos hh] at h
      cases h
      exact Or.inr rfl
    · rw [if_neg hh] at h
      cases h

theorem classify_eq_self {c : Char} (h : outChar c = true) : classify c = some c := by
  rw [classify]
  simp only [outChar, Bool.or_eq_true, beq_iff_eq] at h
  rcases h with ((h | h) | h) | rfl
  · rw [if_pos (by simp [isKeep, h])]
  · rw [if_pos (by simp [isKeep, h])]
  · rw [if_pos (by simp [isKeep, h])]
  · rw [if_neg (by rw [keep_not_hyphen]; simp), if_pos (by decide)]

theorem noBd_toLowerAscii {a b : Char} (h : NoBd a b) :
    NoBd (toLowerAscii a) (toLowerAscii b) := by
  rw [NoBd, isBoundary] at h ⊢
  rw [isUpper_toLowerAscii, isCJK_toLowerAscii, isCJK_toLowerAscii,
    isKeep_toLowerAscii, isKeep_toLowerAscii]
  cases hka : isKeep a <;> cases hkb : isKeep b <;> simp_all [isBoundary]

theorem segInv_processSegment (cs : List Char) : SegInv (processSegment cs) := by
  set ks := (cs.map transliterate).filterMap classify with hks
  set bs := insertBoundaries ks with hbs
  set ls := bs.map toLowerAscii with hls
  set cs2 := collapseHyphens ls with hcs2
  have hmem_ks : ∀ c ∈ ks, isKeep c = true ∨ c = '-' := by
    intro c hc
    rw [hks] at hc
    obtain ⟨a, _, ha⟩ := List.mem_filterMap.1 hc
    exact classify_some ha
  have hmem_bs : ∀ c ∈ bs, isKeep c = true ∨ c = '-' := by
    intro c hc
    rcases mem_insertBoundaries hc with h | h
    · exact hmem_ks c h
    · exact Or.inr h
  have hmem_ls : ∀ c ∈ ls, outChar c = true := by
    intro c hc
    rw [hls] at hc
    obtain ⟨a, ha, rfl⟩ := List.mem_map.1 hc
    exact outChar_toLowerAscii (hmem_bs a ha)
  have hnobd_ls : ls.Chain' NoBd := by
    rw [hls, List.chain'_map]
    exact (chain'_insertBoundaries ks).imp (fun a b => noBd_toLowerAscii)
  have hmem_cs2 : ∀ c ∈ cs2, outChar c = true :=
    fun c hc => hmem_ls c (mem_collapseHyphens hc)
  refine ⟨?_, ?_, ?_, ?_, ?_⟩
  · exact fun c hc => hmem_cs2 c (mem_trimHyphens hc)
  · exact chain'_trimHyphens (collapseHyphens_nodh ls)
  · exact chain'_trimHyphens (chain'_collapseHyphens hnobd_ls)
  · exact headOk_trimHyphens
  · exact lastOk_trimHyphens

theorem processSegment_eq_self {s : List Char} (h : SegInv s) : processSegment s = s := by
  rw [processSegment,
    map_eq_self_of_mem (fun c hc => transliterate_eq_self (h.mem c hc)),
    filterMap_eq_self_of_mem (fun c hc => classify_eq_self (h.mem c hc)),
    insertBoundaries_eq_self h.nobd,
    map_eq_self_of_mem (fun c hc => toLowerAscii_eq_self (isUpper_eq_false_of_outChar (h.mem c hc))),
    collapseHyphens_eq_self h.nodh]
  exact trimHyphens_eq_self h.headOk h.lastOk

/-! ### Path-level lemmas and idempotence of the permalink generator -/

theorem outChar_ne_slash_dot {c : Char} (h : outChar c = true) : c ≠ '/' ∧ c ≠ '.' := by
  constructor <;> intro he <;> subst he <;>
    rcases outChar_ranges h with ⟨h1, h2⟩ | ⟨h1, h2⟩ | ⟨h1, h2⟩ | h1 <;>
    simp_all

theorem splitOnChar_ne_nil {sep : Char} : ∀ (l : List Char), splitOnChar sep l ≠ []
  | [] => by simp [splitOnChar]
  | c :: cs => by
    rw [splitOnChar]
    by_cases h : (c == sep) = true
    · simp [h]
    · simp only [h, Bool.false_eq_true, if_false]
      cases hr : splitOnChar sep cs with
      | nil => simp
      | cons s ss => simp

theorem splitOnChar_no_sep {sep : Char} :
    ∀ {l : List Char}, (∀ c ∈ l, c ≠ sep) → splitOnChar sep l = [l]
  | [], _ => rfl
  | c :: cs, h => by
    rw [splitOnChar]
    have hc : (c == sep) = false := by simp [h c (by simp)]
    simp only [hc, Bool.false_eq_true, if_false]
    rw [splitOnChar_no_sep (fun x hx => h x (by simp [hx]))]

theorem splitOnChar_append {sep : Char} {t h : List Char} {tl : List (List Char)}
    (ht : splitOnChar sep t = h :: tl) :
    ∀ {s : List Char}, (∀ c ∈ s, c ≠ sep) →
      splitOnChar sep (s ++ t) = (s ++ h) :: tl
  | [], _ => by simpa using ht
  | c :: s', hs => by
    rw [List.cons_append, splitOnChar]
    have hc : (c == sep) = false := by simp [hs c (by simp)]
    simp only [hc, Bool.false_eq_true, if_false]
    rw [splitOnChar_append ht (fun x hx => hs x (by simp [hx]))]
    rfl

theorem splitOnChar_intercalate {sep : Char} :
    ∀ {parts : List (List Char)}, parts ≠ [] →
      (∀ p ∈ parts, ∀ c ∈ p, c ≠ sep) →
      splitOnChar sep (intercalateChar sep parts) = parts
  | [], hne, _ => absurd rfl hne
  | [p], _, hp => by
    rw [intercalateChar]
    exact splitOnChar_no_sep (hp p (by simp))
  | p :: q :: rest, _, hp => by
    rw [intercalateChar]
    have hrec : splitOnChar sep (intercalateChar sep (q :: rest)) = q :: rest :=
      splitOnChar_intercalate (List.cons_ne_nil q rest)
        (fun x hx => hp x (by simp [List.mem_cons] at hx ⊢; tauto))
    have hsep : splitOnChar sep (sep :: intercalateChar sep (q :: rest))
        = [] :: q :: rest := by
      rw [splitOnChar]
      simp [hrec]
    rw [splitOnChar_append hsep (hp p (by simp))]
    simp

theorem modifyLast_eq_self {f : List Char → List Char} :
    ∀ {l : List (List Char)}, (∀ a, l.getLast? = some a → f a = a) → modifyLast f l = l
  | [], _ => rfl
  | [a], h => by
    rw [modifyLast, h a rfl]
  | a :: b :: rest, h => by
    rw [modifyLast]
    have : ∀ x, (b :: rest).getLast? = some x → f x = x := by
      intro x hx
      exact h x (by rw [List.getLast?_cons_cons]; exact hx)
    rw [modifyLast_eq_self this]

theorem dropExtSeg_eq_self {s : List Char} (h : ∀ c ∈ s, c ≠ '.') : dropExtSeg s = s := by
  have hd : s.reverse.dropWhile (fun c => c != '.') = [] := by
    rw [List.dropWhile_eq_nil_iff]
    intro x hx
    simp [h x (List.mem_reverse.1 hx)]
  rw [dropExtSeg, hd]

/-- The permalink pipeline is idempotent at the character-list level. -/
theorem permalinkChars_idem (l : List Char) :
    permalinkChars (permalinkChars l) = permalinkChars l := by
  set parts := ((modifyLast dropExtSeg (splitOnChar '/' l)).map processSegment).filter
    (fun s => !s.isEmpty) with hparts
  have hinv : ∀ p ∈ parts, SegInv p := by
    intro p hp
    rw [hparts] at hp
    obtain ⟨hp1, _⟩ := List.mem_filter.1 hp
    obtain ⟨q, _, rfl⟩ := List.mem_map.1 hp1
    exact segInv_processSegment q
  have hne : ∀ p ∈ parts, p ≠ [] := by
    intro p hp
    rw [hparts] at hp
    obtain ⟨_, hp2⟩ := List.mem_filter.1 hp
    simpa using hp2
  show permalinkChars (intercalateChar '/' parts) = intercalateChar '/' parts
  cases hcase : parts with
  | nil => rw [intercalateChar]; rfl
  | cons p0 ps =>
    rw [← hcase]
    have hsplit : splitOnChar '/' (intercalateChar '/' parts) = parts :=
      splitOnChar_intercalate (by rw [hcase]; simp)
        (fun p hp c hc => (outChar_ne_slash_dot ((hinv p hp).mem c hc)).1)
    have hlast : modifyLast dropExtSeg parts = parts := by
      refine modifyLast_eq_self ?_
      intro a ha
      have hmem := List.mem_of_mem_getLast? ha
      exact dropExtSeg_eq_self (fun c hc => (outChar_ne_slash_dot ((hinv a hmem).mem c hc)).2)
    have hmap : parts.map processSegment = parts :=
      map_eq_self_of_mem (fun p hp => processSegment_eq_self (hinv p hp))
    have hfil : parts.filter (fun s => !s.isEmpty) = parts :=
      List.filter_eq_self.2 (fun p hp => by simpa using hne p hp)
    rw [permalinkChars, hsplit, hlast, hmap, hfil]

/-- C9: the permalink generator is idempotent on every path:
`generate_permalink (generate_permalink p) = generate_permalink p`. -/
theorem generate_permalink_idem (p : String) :
    generate_permalink (generate_permalink p) = generate_permalink p :=
  congrArg String.mk (permalinkChars_idem p.data)

/-! ## Entity Store data model

Embeds the relational schema of spec section 3: entities, observations and
relations scoped by `project_id`, with unique indexes on
`(project_id, file_path)` and `(project_id, permalink)`.  Columns that may
be NULL are Option-valued; `file_path` is NOT NULL (every Entity has a
backing file). -/

/-- The mutable columns of one entities-table row, without the surrogate id
(a candidate ORM object before flush assigns its id). -/
structure RowData where
  project_id : Nat
  file_path : String
  permalink : Option String
  title : Option String
  entity_type : Option String
  entity_metadata : Option String
  content_type : Option String
  checksum : Option String
  created_at : Option Nat
  updated_at : Option Nat
  deriving DecidableEq

/-- A persisted entities-table row: columns plus the store-assigned id. -/
structure Row extends RowData where
  id : Nat
  deriving DecidableEq

/-- One observations-table row, owned by the entity with id `entity_id`. -/
structure Obs where
  entity_id : Nat
  category : String
  content : String
  deriving DecidableEq

/-- One relations-table row: a directed typed edge between entity ids. -/
structure Rel where
  from_id : Nat
  to_id : Nat
  relation_type : String
  deriving DecidableEq

/-- The persisted store: the three tables plus the id sequence. -/
structure Store where
  next_id : Nat
  entities : List Row
  observations : List Obs
  relations : List Rel
  deriving DecidableEq

/-- Exceptions raised by store operations.  The first four cases are
`IntegrityError`s (caught by `upsert_entity`); `valueError` and
`runtimeError` are never caught; `fuelExhausted` stands for the unbounded
permalink-suffix loop running past the model's fuel. -/
inductive Err where
  | uniqueFilePath
  | uniquePermalink
  | otherIntegrity
  | notNullFilePath
  | valueError
  | runtimeError
  | fuelExhausted
  deriving DecidableEq

/-- An entity row together with its eagerly loaded observations and
relations, as produced by `get_load_options`. -/
structure Loaded where
  row : Row
  observations : List Obs
  outgoing : List Rel
  incoming : List Rel
  deriving DecidableEq

deriving instance DecidableEq for Except

def load (s : Store) (r : Row) : Loaded :=
  ⟨r, s.observations.filter (fun o => o.entity_id == r.id),
    s.relations.filter (fun e => e.from_id == r.id),
    s.relations.filter (fun e => e.to_id == r.id)⟩

def notSelf (selfId : Option Nat) (b : Row) : Bool :=
  match selfId with
  | none => true
  | some i => b.id != i

/-- First constraint violation a flush of row `r` would hit, checked
against every row other than the one with id `selfId` (the row being
updated).  `extra` stands for schema constraints outside this engine's
resolution scope (spec section 7, "unrelated integrity violation"). -/
def violation (extra : Row → Bool) (s : Store) (selfId : Option Nat) (r : Row) : Option Err :=
  if s.entities.any (fun b => notSelf selfId b && b.project_id == r.project_id
      && b.file_path == r.file_path) then some .uniqueFilePath
  else if s.entities.any (fun b => notSelf selfId b && b.project_id == r.project_id
      && r.permalink.isSome && b.permalink == r.permalink) then some .uniquePermalink
  else if extra r then none
  else some .otherIntegrity

def insertRow (s : Store) (r : Row) : Store :=
  { s with entities := s.entities ++ [r], next_id := s.next_id + 1 }

def replaceRow (s : Store) (i : Nat) (r' : Row) : Store :=
  { s with entities := s.entities.map (fun r => if r.id == i then r' else r) }

/-- Project-scoped lookup by file path (`get_by_file_path` / the
`select().where(file_path == ...)` queries of the repository). -/
def findPath (s : Store) (pid : Nat) (p : String) : Option Row :=
  s.entities.find? (fun b => b.project_id == pid && b.file_path == p)

def RowData.withId (d : RowData) (i : Nat) : Row :=
  { toRowData := d, id := i }

/-- The seven mutable fields `upsert_entity` copies onto an existing row
(title, entity_type, entity_metadata, content_type, permalink, checksum,
updated_at). -/
def setFields (r0 : Row) (e : RowData) : Row :=
  { r0 with
    title := e.title
    entity_type := e.entity_type
    entity_metadata := e.entity_metadata
    content_type := e.content_type
    permalink := e.permalink
    checksum := e.checksum
    updated_at := e.updated_at }

/-- Post-write re-fetch by file path with relationships loaded; a miss is
the `RuntimeError` invariant violation of the source. -/
def refetch (s : Store) (pid : Nat) (p : String) : Except Err (Store × Loaded) :=
  match findPath s pid p with
  | some f => .ok (s, load s f)
  | none => .error .runtimeError

/-- The update path of `upsert_entity`: overwrite the mutable fields of
`r0` in place, flush, and re-fetch with relationships loaded. -/
def updateExisting (extra : Row → Bool) (s : Store) (r0 : Row) (e : RowData) :
    Except Err (Store × Loaded) :=
  let r' := setFields r0 e
  match violation extra s (some r0.id) r' with
  | some err => .error err
  | none => refetch (replaceRow s r0.id r') e.project_id e.file_path

/-- Concurrent writers committing `rows` into the store between the
initial existence check and the insert (the check-then-act race window). -/
def commit (s : Store) (rows : List Row) : Store :=
  { s with
    entities := s.entities ++ rows
    next_id := (rows.map (fun r => r.id + 1)).foldr max s.next_id }

/-- The base string the suffix loop builds on; a missing permalink renders
as the Python string "None" inside the f-string. -/
def permalinkBase : Option String → String
  | some p => p
  | none => "None"

def suffixed (base : String) (k : Nat) : String :=
  base ++ "-" ++ Nat.repr k

def permalinkTaken (s : Store) (pid : Nat) (p : String) : Bool :=
  s.entities.any (fun b => b.project_id == pid && b.permalink == some p)

/-- The suffix search loop of `_handle_permalink_conflict`, from suffix `k`
with the given fuel (the source loops unboundedly; any run that finds a
free suffix is reproduced exactly by a sufficiently fueled run). -/
def findFreeSuffix (s : Store) (pid : Nat) (base : String) : Nat → Nat → Option Nat
  | _, 0 => none
  | k, fuel + 1 =>
    if permalinkTaken s pid (suffixed base k) then findFreeSuffix s pid base (k + 1) fuel
    else some k

/-- Embeds `EntityRepository._handle_permalink_conflict`: try suffixes
base-1, base-2, ... until one is free, set it on the candidate and insert. -/
def handle_permalink_conflict (extra : Row → Bool) (s : Store) (e : RowData) :
    Except Err (Store × Loaded) :=
  let base := permalinkBase e.permalink
  match findFreeSuffix s e.project_id base 1 (s.entities.length + 1) with
  | none => .error .fuelExhausted
  | some k =>
    let cand := ({ e with permalink := some (suffixed base k) } : RowData).withId s.next_id
    match violation extra s none cand with
    | some err => .error err
    | none => refetch (insertRow s cand) e.project_id e.file_path

/-- Embeds `EntityRepository.upsert_entity`.  `conc` is what a concurrent
writer commits between the initial existence check and the insert (the
check-then-act race window the source handles); `[]` gives the sequential
behavior.  An existing row with the candidate's `(project_id, file_path)`
is updated in place; otherwise the insert is attempted, and on an
`IntegrityError` the source rolls back and either updates the row a racing
writer inserted at the same path or disambiguates the permalink. -/
def upsert_entity (extra : Row → Bool) (s : Store) (conc : List Row) (e : RowData) :
    Except Err (Store × Loaded) :=
  match findPath s e.project_id e.file_path with
  | some r0 => updateExisting extra s r0 e
  | none =>
    let s1 := commit s conc
    let cand := e.withId s1.next_id
    match violation extra s1 none cand with
    | none => refetch (insertRow s1 cand) e.project_id e.file_path
    | some _ =>
      match findPath s1 e.project_id e.file_path with
      | some r1 => updateExisting extra s1 r1 e
      | none => handle_permalink_conflict extra s1 e

/-! ## Optimistic (native ON CONFLICT) operations -/

/-- The columns of the entities table, used as conflict targets. -/
inductive Col where
  | id
  | project_id
  | file_path
  | permalink
  | title
  | entity_type
  | entity_metadata
  | content_type
  | checksum
  | created_at
  | updated_at
  deriving DecidableEq

/-- The `entity_data` dictionary of the optimistic operations: a field is
`some` exactly when the corresponding key is supplied. -/
structure EntityData where
  id : Option Nat := none
  project_id : Option Nat := none
  file_path : Option String := none
  permalink : Option String := none
  title : Option String := none
  entity_type : Option String := none
  entity_metadata : Option String := none
  content_type : Option String := none
  checksum : Option String := none
  created_at : Option Nat := none
  updated_at : Option Nat := none
  deriving DecidableEq

/-- Whether row `b` agrees with the supplied data on conflict column `c`
(an unsupplied conflict column inserts NULL, which never conflicts). -/
def colMatches (b : Row) (d : EntityData) : Col → Bool
  | .id => d.id == some b.id
  | .project_id => d.project_id == some b.project_id
  | .file_path => d.file_path == some b.file_path
  | .permalink => d.permalink.isSome && b.permalink == d.permalink
  | .title => d.title.isSome && b.title == d.title
  | .entity_type => d.entity_type.isSome && b.entity_type == d.entity_type
  | .entity_metadata => d.entity_metadata.isSome && b.entity_metadata == d.entity_metadata
  | .content_type => d.content_type.isSome && b.content_type == d.content_type
  | .checksum => d.checksum.isSome && b.checksum == d.checksum
  | .created_at => d.created_at.isSome && b.created_at == d.created_at
  | .updated_at => d.updated_at.isSome && b.updated_at == d.updated_at

/-- The row a conflicting upsert statement would fire its DO UPDATE on:
the row of the same project matching the supplied data on every conflict
column. -/
def findConflict (s : Store) (pid : Nat) (d : EntityData) (cc : List Col) : Option Row :=
  s.entities.find? (fun b => b.project_id == pid && cc.all (colMatches b d))

/-- SET clause of the DO UPDATE: a supplied field overwrites unless the
column is a conflict column; columns stay put otherwise. -/
def pickV {α : Type} (cc : List Col) (c : Col) (sup : Option α) (old : α) : α :=
  if cc.contains c then old else sup.getD old

def pickN {α : Type} (cc : List Col) (c : Col) (sup : Option α) (old : Option α) : Option α :=
  if cc.contains c then old
  else match sup with
    | some v => some v
    | none => old

/-- Apply the DO UPDATE SET of `upsert_entity_optimistic` to existing row
`r0`: every supplied field except the conflict columns and the surrogate
`id` is overwritten from the excluded row. -/
def mergeRow (r0 : Row) (d : EntityData) (cc : List Col) : Row :=
  { id := r0.id
    project_id := pickV cc .project_id d.project_id r0.project_id
    file_path := pickV cc .file_path d.file_path r0.file_path
    permalink := pickN cc .permalink d.permalink r0.permalink
    title := pickN cc .title d.title r0.title
    entity_type := pickN cc .entity_type d.entity_type r0.entity_type
    entity_metadata := pickN cc .entity_metadata d.entity_metadata r0.entity_metadata
    content_type := pickN cc .content_type d.content_type r0.content_type
    checksum := pickN cc .checksum d.checksum r0.checksum
    created_at := pickN cc .created_at d.created_at r0.created_at
    updated_at := pickN cc .updated_at d.updated_at r0.updated_at }

/-- Fresh row built by the INSERT arm of the upsert statement (columns not
supplied insert NULL; a supplied id is honored, otherwise the sequence
assigns the next id). -/
def EntityData.toRow (d : EntityData) (nextId : Nat) (pid : Nat) : Row :=
  { id := d.id.getD nextId
    project_id := d.project_id.getD pid
    file_path := d.file_path.getD ""
    permalink := d.permalink
    title := d.title
    entity_type := d.entity_type
    entity_metadata := d.entity_metadata
    content_type := d.content_type
    checksum := d.checksum
    created_at := d.created_at
    updated_at := d.updated_at }

/-- Execute the single INSERT ... ON CONFLICT DO UPDATE statement of
`upsert_entity_optimistic` against the store. -/
def executeUpsertStmt (extra : Row → Bool) (s : Store) (pid' : Nat) (d : EntityData)
    (cc : List Col) : Except Err Store :=
  match findConflict s pid' d cc with
  | some r0 =>
    let r' := mergeRow r0 d cc
    match violation extra s (some r0.id) r' with
    | some err => .error err
    | none => .ok (replaceRow s r0.id r')
  | none =>
    let cand := d.toRow s.next_id pid'
    match violation extra s none cand with
    | some err => .error err
    | none => .ok (insertRow s cand)

/-- Embeds `EntityRepository.upsert_entity_optimistic`: default the
conflict columns to `[file_path]`, fill in the repository's project id,
execute the atomic upsert statement, then re-fetch by `file_path`.  A
dictionary without a `file_path` key inserts NULL into the NOT NULL
`file_path` column (NOT NULL is modelled from the spec data model, the
SQLAlchemy model file being outside the tree), so the statement itself is
rejected before any write; the source's own falsy guard then covers the
empty-string case after the write. -/
def upsert_entity_optimistic (extra : Row → Bool) (pid : Nat) (s : Store)
    (entity_data : EntityData) (conflict_columns : Option (List Col)) :
    Except Err (Store × Loaded) :=
  let cc := conflict_columns.getD [Col.file_path]
  let d := if entity_data.project_id = none then { entity_data with project_id := some pid }
    else entity_data
  match d.file_path with
  | none => .error .notNullFilePath
  | some fp =>
    match executeUpsertStmt extra s (d.project_id.getD pid) d cc with
    | .error err => .error err
    | .ok s' =>
      if fp = "" then .error .valueError
      else refetch s' (d.project_id.getD pid) fp

def fillField {α : Type} (sup : Option α) (cur : Option α) : Option α :=
  match sup with
  | some v => some v
  | none => cur

/-- Embeds `EntityRepository.update_entity_optimistic`: look up the entity
by file path first and return `none` without writing when it is absent;
otherwise build the upsert dictionary (file_path and project_id, overridden
by the updates, then backfilled from the current row for title,
entity_type, content_type, permalink, checksum, created_at and updated_at)
and delegate to the optimistic upsert. -/
def update_entity_optimistic (extra : Row → Bool) (pid : Nat) (s : Store)
    (file_path : String) (updates : EntityData) (conflict_columns : Option (List Col)) :
    Except Err (Store × Option Loaded) :=
  match s.entities.find? (fun b => b.file_path == file_path && b.project_id == pid) with
  | none => .ok (s, none)
  | some entity =>
    let d0 := { updates with
      file_path := fillField updates.file_path (some file_path)
      project_id := fillField updates.project_id (some pid) }
    let d1 := { d0 with
      title := fillField d0.title entity.title
      entity_type := fillField d0.entity_type entity.entity_type
      content_type := fillField d0.content_type entity.content_type
      permalink := fillField d0.permalink entity.permalink
      checksum := fillField d0.checksum entity.checksum
      created_at := fillField d0.created_at entity.created_at
      updated_at := fillField d0.updated_at entity.updated_at }
    match upsert_entity_optimistic extra pid s d1 conflict_columns with
    | .error e => .error e
    | .ok (s', l) => .ok (s', some l)

/-! ## Sync coordinator: move handling (modelled from the spec, section 4.3) -/

/-- A path provably different from every file path in the store (strictly
longer than each of them), used as the guaranteed-unique placeholder. -/
def freshPath (s : Store) : String :=
  String.mk ('#' :: s.entities.foldr (fun r acc => r.file_path.data ++ acc) [])

/-- Modelled from the spec: the repository `update` call the move handler
issues (section 4.3 step 1), setting `file_path = new_path` and the
recomputed permalink on the row with the given id; the flush surfaces the
first constraint violation; an id matching no row is a no-op. -/
def update_move (extra : Row → Bool) (s : Store) (eid : Nat) (newPath : String)
    (newPermalink : Option String) : Except Err Store :=
  match s.entities.find? (fun b => b.id == eid) with
  | none => .ok s
  | some r =>
    let r' := { r with file_path := newPath, permalink := newPermalink }
    match violation extra s (some eid) r' with
    | some err => .error err
    | none => .ok (replaceRow s eid r')

/-- Modelled from the spec: `SyncService.handle_move` (section 4.3, source
not in the tree).  Try the direct update to the new path; on a uniqueness
violation on `file_path`, park the moving entity at a guaranteed-unique
placeholder path (claiming no permalink) and record
`(placeholder, destination)` for later resolution; any other error is
re-raised unchanged. -/
def handle_move (extra : Row → Bool) (pid : Nat) (s : Store) (oldPath newPath : String) :
    Except Err (Store × Option (String × String)) :=
  match findPath s pid oldPath with
  | none => .ok (s, none)
  | some r =>
    match update_move extra s r.id newPath (some (generate_permalink newPath)) with
    | .ok s' => .ok (s', none)
    | .error .uniqueFilePath =>
      let tmp := freshPath s
      match update_move extra s r.id tmp none with
      | .ok s' => .ok (s', some (tmp, newPath))
      | .error e => .error e
    | .error e => .error e

/-- First pending placeholder whose destination is now vacant, together
with the remaining pending list. -/
def findResolvable (s : Store) (pid : Nat) :
    List (String × String) → Option ((String × String) × List (String × String))
  | [] => none
  | p :: rest =>
    if (findPath s pid p.2).isNone then some (p, rest)
    else match findResolvable s pid rest with
      | some (q, qs) => some (q, p :: qs)
      | none => none

/-- Modelled from the spec: resolve parked placeholders to their true
destinations once those are vacated, repeating until no placeholder can
move (fuel bounds the rounds; one placeholder resolves per round). -/
def resolveAll (extra : Row → Bool) (pid : Nat) :
    Nat → Store → List (String × String) → Except Err (Store × List (String × String))
  | 0, s, pending => .ok (s, pending)
  | fuel + 1, s, pending =>
    match findResolvable s pid pending with
    | none => .ok (s, pending)
    | some ((tmp, dest), rest) =>
      match findPath s pid tmp with
      | none => resolveAll extra pid fuel s rest
      | some r =>
        match update_move extra s r.id dest (some (generate_permalink dest)) with
        | .ok s' => resolveAll extra pid fuel s' rest
        | .error e => .error e

/-- One change-detector event consumed by a sync pass. -/
inductive SyncEvent where
  | upsert (e : RowData)
  | move (oldPath newPath : String)
  | delete (path : String)

/-- Embeds `delete_by_file_path` including the ownership cascade: the
entity row goes together with its observations and relations. -/
def delete_by_file_path (s : Store) (pid : Nat) (p : String) : Store :=
  let removed := s.entities.filter (fun b => b.project_id == pid && b.file_path == p)
  { s with
    entities := s.entities.filter (fun b => !(b.project_id == pid && b.file_path == p))
    observations := s.observations.filter
      (fun o => !(removed.any (fun b => b.id == o.entity_id)))
    relations := s.relations.filter
      (fun e => !(removed.any (fun b => b.id == e.from_id || b.id == e.to_id))) }

def applyEvent (extra : Row → Bool) (pid : Nat) (s : Store)
    (pending : List (String × String)) :
    SyncEvent → Except Err (Store × List (String × String))
  | .upsert e =>
    match upsert_entity extra s [] e with
    | .ok (s', _) => .ok (s', pending)
    | .error err => .error err
  | .move a b =>
    match handle_move extra pid s a b with
    | .ok (s', none) => .ok (s', pending)
    | .ok (s', some t) => .ok (s', pending ++ [t])
    | .error err => .error err
  | .delete p => .ok (delete_by_file_path s pid p, pending)

def runEvents (extra : Row → Bool) (pid : Nat) :
    Store → List (String × String) → List SyncEvent →
      Except Err (Store × List (String × String))
  | s, pending, [] => .ok (s, pending)
  | s, pending, ev :: evs =>
    match applyEvent extra pid s pending ev with
    | .ok (s', pending') => runEvents extra pid s' pending' evs
    | .error e => .error e

/-- Modelled from the spec: one sync pass applies the detected events in
discovery order, then resolves the parked placeholder moves. -/
def sync (extra : Row → Bool) (pid : Nat) (s : Store) (events : List SyncEvent) :
    Except Err Store :=
  match runEvents extra pid s [] events with
  | .error e => .error e
  | .ok (s', pending) =>
    match resolveAll extra pid pending.length s' pending with
    | .error e => .error e
    | .ok (s'', _) => .ok s''

/-! ## Store well-formedness -/

/-- Pairwise row compatibility: rows of the same project never share a
file path, and never share a non-NULL permalink (spec section 3). -/
def RowOk (a b : Row) : Prop :=
  a.project_id = b.project_id →
    a.file_path ≠ b.file_path ∧ ∀ p, a.permalink = some p → b.permalink ≠ some p

/-- Well-formed store: entity ids are distinct and below the sequence
value, and the two per-project uniqueness invariants hold. -/
structure WF (s : Store) : Prop where
  nodup : (s.entities.map (fun r => r.id)).Nodup
  lt_next : ∀ r ∈ s.entities, r.id < s.next_id
  ok : s.entities.Pairwise RowOk

theorem RowOk_symm {a b : Row} (h : RowOk a b) : RowOk b a := by
  intro hp
  obtain ⟨h1, h2⟩ := h hp.symm
  refine ⟨fun he => h1 he.symm, ?_⟩
  intro p hbp hap
  exact h2 p hap hbp

/-- Number of rows of a project at a file path. -/
def matchCount (s : Store) (pid : Nat) (p : String) : Nat :=
  s.entities.countP (fun b => b.project_id == pid && b.file_path == p)

theorem uniqueId {s : Store} (hwf : WF s) {x y : Row} (hx : x ∈ s.entities)
    (hy : y ∈ s.entities) (hid : x.id = y.id) : x = y := by
  by_contra hne
  have hpw : s.entities.Pairwise (fun a b => a.id ≠ b.id) :=
    List.pairwise_map.1 hwf.nodup
  have hsym : Symmetric (fun a b : Row => a.id ≠ b.id) := by
    intro x y h he
    exact h he.symm
  exact (hpw.forall hsym hx hy hne) hid

theorem violation_none_elim {extra : Row → Bool} {s : Store} {selfId : Option Nat} {r : Row}
    (h : violation extra s selfId r = none) :
    (∀ b ∈ s.entities, notSelf selfId b = true → b.project_id = r.project_id →
      b.file_path ≠ r.file_path ∧ ∀ p, r.permalink = some p → b.permalink ≠ some p)
    ∧ extra r = true := by
  rw [violation] at h
  split_ifs at h with h1 h2 h3
  · refine ⟨?_, h3⟩
    intro b hb hself hpid
    constructor
    · intro hfp
      exact h1 (List.any_eq_true.2 ⟨b, hb, by simp [hself, hpid, hfp]⟩)
    · intro p hp hbp
      exact h2 (List.any_eq_true.2 ⟨b, hb, by simp [hself, hpid, hp, hbp]⟩)

theorem findPath_some_elim {s : Store} {pid : Nat} {p : String} {r : Row}
    (h : findPath s pid p = some r) :
    r ∈ s.entities ∧ r.project_id = pid ∧ r.file_path = p := by
  have hm := List.mem_of_find?_eq_some h
  have hp := List.find?_some h
  simp only [Bool.and_eq_true, beq_iff_eq] at hp
  exact ⟨hm, hp.1, hp.2⟩

theorem findPath_none_elim {s : Store} {pid : Nat} {p : String}
    (h : findPath s pid p = none) :
    ∀ b ∈ s.entities, b.project_id = pid → b.file_path ≠ p := by
  rw [findPath, List.find?_eq_none] at h
  intro b hb hpid hfp
  exact h b hb (by simp [hpid, hfp])

theorem findPath_eq_some {s : Store} {pid : Nat} {p : String} {r : Row} (hwf : WF s)
    (hr : r ∈ s.entities) (hpid : r.project_id = pid) (hp : r.file_path = p) :
    findPath s pid p = some r := by
  rw [findPath]
  cases hf : s.entities.find? (fun b => b.project_id == pid && b.file_path == p) with
  | none =>
    rw [List.find?_eq_none] at hf
    exact absurd (by simp [hpid, hp]) (hf r hr)
  | some b =>
    have hm := List.mem_of_find?_eq_some hf
    have hpb := List.find?_some hf
    simp only [Bool.and_eq_true, beq_iff_eq] at hpb
    by_cases hbe : b = r
    · rw [hbe]
    · have hsym : Symmetric RowOk := by
        intro x y h
        exact RowOk_symm h
      have hpw := hwf.ok.forall hsym hm hr hbe
      exact absurd (hpb.2.trans hp.symm) (hpw (hpb.1.trans hpid.symm)).1

theorem countP_path_le_one (pid : Nat) (p : String) :
    ∀ {l : List Row}, l.Pairwise RowOk →
      l.countP (fun b => b.project_id == pid && b.file_path == p) ≤ 1
  | [], _ => by simp
  | a :: l, hpw => by
    rw [List.pairwise_cons] at hpw
    rw [List.countP_cons]
    by_cases ha : (a.project_id == pid && a.file_path == p) = true
    · simp only [ha, if_true]
      have hz : l.countP (fun b => b.project_id == pid && b.file_path == p) = 0 := by
        rw [List.countP_eq_zero]
        intro b hb hbp
        simp only [Bool.and_eq_true, beq_iff_eq] at ha hbp
        exact (hpw.1 b hb (ha.1.trans hbp.1.symm)).1 (ha.2.trans hbp.2.symm)
      omega
    · simp only [ha, Bool.false_eq_true, if_false]
      have := countP_path_le_one pid p hpw.2
      omega

theorem matchCount_le_one {s : Store} {pid : Nat} {p : String} (hwf : WF s) :
    matchCount s pid p ≤ 1 :=
  countP_path_le_one pid p hwf.ok

theorem matchCount_pos {s : Store} {pid : Nat} {p : String} {r : Row}
    (hr : r ∈ s.entities) (hpid : r.project_id = pid) (hp : r.file_path = p) :
    1 ≤ matchCount s pid p := by
  rw [matchCount]
  have : 0 < s.entities.countP (fun b => b.project_id == pid && b.file_path == p) :=
    List.countP_pos_iff.2 ⟨r, hr, by simp [hpid, hp]⟩
  omega

theorem matchCount_eq_one {s : Store} {pid : Nat} {p : String} {r : Row} (hwf : WF s)
    (hr : r ∈ s.entities) (hpid : r.project_id = pid) (hp : r.file_path = p) :
    matchCount s pid p = 1 :=
  Nat.le_antisymm (matchCount_le_one hwf) (matchCount_pos hr hpid hp)

theorem matchCount_zero {s : Store} {pid : Nat} {p : String}
    (h : findPath s pid p = none) : matchCount s pid p = 0 := by
  rw [matchCount, List.countP_eq_zero]
  intro b hb hbp
  simp only [Bool.and_eq_true, beq_iff_eq] at hbp
  exact findPath_none_elim h b hb hbp.1 hbp.2

/-! ### Preservation of well-formedness by checked writes -/

theorem wf_insertRow {extra : Row → Bool} {s : Store} {r : Row} (hwf : WF s)
    (hid : r.id = s.next_id) (hv : violation extra s none r = none) :
    WF (insertRow s r) := by
  obtain ⟨hv1, _⟩ := violation_none_elim hv
  refine ⟨?_, ?_, ?_⟩
  · rw [insertRow]
    simp only [List.map_append, List.map_cons, List.map_nil]
    rw [List.nodup_append]
    refine ⟨hwf.nodup, List.nodup_singleton _, ?_⟩
    intro x hx hx2
    simp only [List.mem_singleton] at hx2
    subst hx2
    obtain ⟨y, hy, hyid⟩ := List.mem_map.1 hx
    have := hwf.lt_next y hy
    omega
  · intro r' hr'
    rw [insertRow] at hr'
    simp only [List.mem_append, List.mem_singleton] at hr'
    rcases hr' with h | rfl
    · have := hwf.lt_next r' h
      simp only [insertRow]
      omega
    · simp only [insertRow]
      omega
  · rw [insertRow]
    simp only []
    rw [List.pairwise_append]
    refine ⟨hwf.ok, List.pairwise_singleton _ _, ?_⟩
    intro a ha b hb
    simp only [List.mem_singleton] at hb
    subst hb
    apply RowOk_symm
    intro hpid
    have := hv1 a ha rfl hpid.symm
    exact ⟨fun he => this.1 he.symm, this.2⟩

theorem mem_replaceRow {s : Store} {i : Nat} {r' x : Row}
    (hx : x ∈ (replaceRow s i r').entities) :
    ∃ y ∈ s.entities, x = if y.id == i then r' else y := by
  rw [replaceRow] at hx
  obtain ⟨y, hy, he⟩ := List.mem_map.1 hx
  exact ⟨y, hy, he.symm⟩

theorem wf_replaceRow {extra : Row → Bool} {s : Store} {i : Nat} {r' : Row} (hwf : WF s)
    (hid : r'.id = i) (hv : violation extra s (some i) r' = none) :
    WF (replaceRow s i r') := by
  obtain ⟨hv1, _⟩ := violation_none_elim hv
  have hids : (replaceRow s i r').entities.map (fun r => r.id)
      = s.entities.map (fun r => r.id) := by
    rw [replaceRow]
    simp only [List.map_map]
    apply List.map_congr_left
    intro a _
    simp only [Function.comp]
    by_cases ha : (a.id == i) = true
    · simp only [ha, if_true]
      simp only [beq_iff_eq] at ha
      rw [hid, ha]
    · simp [ha]
  refine ⟨?_, ?_, ?_⟩
  · rw [hids]; exact hwf.nodup
  · intro x hx
    obtain ⟨y, hy, he⟩ := mem_replaceRow hx
    have hone : (replaceRow s i r').next_id = s.next_id := rfl
    rw [hone]
    by_cases hyi : (y.id == i) = true
    · rw [he, if_pos hyi]
      simp only [beq_iff_eq] at hyi
      rw [hid, ← hyi]
      exact hwf.lt_next y hy
    · rw [he, if_neg (by simp_all)]
      exact hwf.lt_next y hy
  · rw [replaceRow]
    simp only []
    rw [List.pairwise_map]
    have hcomb := hwf.ok.and (List.pairwise_map.1 hwf.nodup)
    refine hcomb.imp_of_mem ?_
    intro a b ha hb hab
    obtain ⟨hok, hne⟩ := hab
    by_cases hai : (a.id == i) = true <;> by_cases hbi : (b.id == i) = true
    · simp only [beq_iff_eq] at hai hbi
      exact absurd (hai.trans hbi.symm) hne
    · rw [if_pos hai, if_neg (by simp_all)]
      simp only [beq_iff_eq] at hai
      apply RowOk_symm
      intro hpid
      have hself : notSelf (some i) b = true := by
        simp only [notSelf, bne_iff_ne, ne_eq]
        simp only [beq_iff_eq] at hbi
        exact hbi
      have := hv1 b hb hself hpid
      exact ⟨this.1, fun p hbp hrp => (this.2 p hrp) hbp⟩
    · rw [if_neg (by simp_all), if_pos hbi]
      simp only [beq_iff_eq] at hbi
      intro hpid
      have hself : notSelf (some i) a = true := by
        simp only [notSelf, bne_iff_ne, ne_eq]
        simp only [beq_iff_eq] at hai
        exact hai
      have := hv1 a ha hself hpid
      exact ⟨this.1, fun p hap hrp => (this.2 p hrp) hap⟩
    · rw [if_neg (by simp_all), if_neg (by simp_all)]
      exact hok

/-! ### Frame facts about the write helpers -/

@[simp] theorem setFields_id (r0 : Row) (e : RowData) : (setFields r0 e).id = r0.id := rfl

@[simp] theorem setFields_project_id (r0 : Row) (e : RowData) :
    (setFields r0 e).project_id = r0.project_id := rfl

@[simp] theorem setFields_file_path (r0 : Row) (e : RowData) :
    (setFields r0 e).file_path = r0.file_path := rfl

@[simp] theorem setFields_created_at (r0 : Row) (e : RowData) :
    (setFields r0 e).created_at = r0.created_at := rfl

@[simp] theorem setFields_title (r0 : Row) (e : RowData) :
    (setFields r0 e).title = e.title := rfl

@[simp] theorem setFields_entity_type (r0 : Row) (e : RowData) :
    (setFields r0 e).entity_type = e.entity_type := rfl

@[simp] theorem setFields_entity_metadata (r0 : Row) (e : RowData) :
    (setFields r0 e).entity_metadata = e.entity_metadata := rfl

@[simp] theorem setFields_content_type (r0 : Row) (e : RowData) :
    (setFields r0 e).content_type = e.content_type := rfl

@[simp] theorem setFields_permalink (r0 : Row) (e : RowData) :
    (setFields r0 e).permalink = e.permalink := rfl

@[simp] theorem setFields_checksum (r0 : Row) (e : RowData) :
    (setFields r0 e).checksum = e.checksum := rfl

@[simp] theorem setFields_updated_at (r0 : Row) (e : RowData) :
    (setFields r0 e).updated_at = e.updated_at := rfl

@[simp] theorem replaceRow_observations (s : Store) (i : Nat) (r' : Row) :
    (replaceRow s i r').observations = s.observations := rfl

@[simp] theorem replaceRow_relations (s : Store) (i : Nat) (r' : Row) :
    (replaceRow s i r').relations = s.relations := rfl

@[simp] theorem replaceRow_next_id (s : Store) (i : Nat) (r' : Row) :
    (replaceRow s i r').next_id = s.next_id := rfl

@[simp] theorem insertRow_observations (s : Store) (r : Row) :
    (insertRow s r).observations = s.observations := rfl

@[simp] theorem insertRow_relations (s : Store) (r : Row) :
    (insertRow s r).relations = s.relations := rfl

theorem replaceRow_ids (s : Store) (i : Nat) (r' : Row) (hid : r'.id = i) :
    (replaceRow s i r').entities.map (fun r => r.id) = s.entities.map (fun r => r.id) := by
  rw [replaceRow]
  simp only [List.map_map]
  apply List.map_congr_left
  intro a _
  simp only [Function.comp]
  by_cases ha : (a.id == i) = true
  · simp only [ha, if_true]
    simp only [beq_iff_eq] at ha
    rw [hid, ha]
  · simp [ha]

theorem mem_replaceRow_self {s : Store} {i : Nat} {r' r0 : Row} (hr0 : r0 ∈ s.entities)
    (hi : r0.id = i) : r' ∈ (replaceRow s i r').entities := by
  rw [replaceRow]
  refine List.mem_map.2 ⟨r0, hr0, ?_⟩
  simp [hi]

theorem findPath_insertRow_self {s : Store} {cand : Row} {pid : Nat} {p : String}
    (hnone : findPath s pid p = none) (hpid : cand.project_id = pid)
    (hp : cand.file_path = p) : findPath (insertRow s cand) pid p = some cand := by
  rw [findPath, insertRow]
  simp only [List.find?_append]
  rw [findPath] at hnone
  rw [hnone]
  simp [List.find?, hpid, hp]

theorem matchCount_insertRow (s : Store) (cand : Row) (pid : Nat) (p : String) :
    matchCount (insertRow s cand) pid p
      = matchCount s pid p
        + (if (cand.project_id == pid && cand.file_path == p) = true then 1 else 0) := by
  rw [matchCount, matchCount, insertRow]
  simp only [List.countP_append, List.countP_cons, List.countP_nil]
  split_ifs with h <;> simp [h]

theorem matchCount_replaceRow {s : Store} {i : Nat} {r' r0 : Row} (hwf : WF s)
    (hr0 : r0 ∈ s.entities) (hi : r0.id = i)
    (hpid : r'.project_id = r0.project_id) (hp : r'.file_path = r0.file_path)
    (pid : Nat) (p : String) :
    matchCount (replaceRow s i r') pid p = matchCount s pid p := by
  rw [matchCount, matchCount, replaceRow]
  simp only [List.countP_map]
  apply List.countP_congr
  intro x hx
  simp only [Function.comp]
  by_cases hxi : (x.id == i) = true
  · simp only [hxi, if_true]
    simp only [beq_iff_eq] at hxi
    have hxr0 : x = r0 := uniqueId hwf hx hr0 (hxi.trans hi.symm)
    subst hxr0
    simp [hpid, hp]
  · simp [hxi]

/-! ### Behavior of the upsert branches -/

theorem updateExisting_ok {extra : Row → Bool} {s : Store} {r0 : Row} {e : RowData}
    (hwf : WF s) (hr0 : r0 ∈ s.entities) (hpid : r0.project_id = e.project_id)
    (hp : r0.file_path = e.file_path)
    (hv : violation extra s (some r0.id) (setFields r0 e) = none) :
    updateExisting extra s r0 e
      = .ok (replaceRow s r0.id (setFields r0 e),
          load (replaceRow s r0.id (setFields r0 e)) (setFields r0 e)) := by
  have hwf' : WF (replaceRow s r0.id (setFields r0 e)) :=
    wf_replaceRow hwf rfl hv
  have hmem : setFields r0 e ∈ (replaceRow s r0.id (setFields r0 e)).entities :=
    mem_replaceRow_self hr0 rfl
  have hfind : findPath (replaceRow s r0.id (setFields r0 e)) e.project_id e.file_path
      = some (setFields r0 e) :=
    findPath_eq_some hwf' hmem (by simp [hpid]) (by simp [hp])
  rw [updateExisting]
  simp only [hv]
  rw [refetch, hfind]

@[simp] theorem withId_id (d : RowData) (i : Nat) : (d.withId i).id = i := rfl

@[simp] theorem withId_project_id (d : RowData) (i : Nat) :
    (d.withId i).project_id = d.project_id := rfl

@[simp] theorem withId_file_path (d : RowData) (i : Nat) :
    (d.withId i).file_path = d.file_path := rfl

@[simp] theorem withId_permalink (d : RowData) (i : Nat) :
    (d.withId i).permalink = d.permalink := rfl

theorem refetch_ok_elim {s : Store} {pid : Nat} {p : String} {s' : Store} {le : Loaded}
    (hok : refetch s pid p = .ok (s', le)) :
    s' = s ∧ findPath s pid p = some le.row ∧ le = load s le.row := by
  rw [refetch] at hok
  cases hfind : findPath s pid p with
  | none => rw [hfind] at hok; cases hok
  | some f =>
    rw [hfind] at hok
    cases hok
    exact ⟨rfl, rfl, rfl⟩

theorem updateExisting_ok_elim {extra : Row → Bool} {s : Store} {r0 : Row} {e : RowData}
    {s' : Store} {le : Loaded}
    (hok : updateExisting extra s r0 e = .ok (s', le)) :
    s' = replaceRow s r0.id (setFields r0 e)
    ∧ violation extra s (some r0.id) (setFields r0 e) = none := by
  rw [updateExisting] at hok
  cases hv : violation extra s (some r0.id) (setFields r0 e) with
  | some err =>
    simp only [hv] at hok
    cases hok
  | none =>
    simp only [hv] at hok
    exact ⟨(refetch_ok_elim hok).1, rfl⟩

theorem handle_permalink_conflict_ok_elim {extra : Row → Bool} {s : Store} {e : RowData}
    {s' : Store} {le : Loaded}
    (hok : handle_permalink_conflict extra s e = .ok (s', le)) :
    ∃ k, findFreeSuffix s e.project_id (permalinkBase e.permalink) 1 (s.entities.length + 1)
        = some k
      ∧ violation extra s none
          (({ e with permalink := some (suffixed (permalinkBase e.permalink) k) }
            : RowData).withId s.next_id) = none
      ∧ s' = insertRow s
          (({ e with permalink := some (suffixed (permalinkBase e.permalink) k) }
            : RowData).withId s.next_id) := by
  rw [handle_permalink_conflict] at hok
  cases hk : findFreeSuffix s e.project_id (permalinkBase e.permalink) 1
      (s.entities.length + 1) with
  | none =>
    simp only [hk] at hok
    cases hok
  | some k =>
    simp only [hk] at hok
    cases hv : violation extra s none
        (({ e with permalink := some (suffixed (permalinkBase e.permalink) k) }
          : RowData).withId s.next_id) with
    | some err =>
      simp only [hv] at hok
      cases hok
    | none =>
      simp only [hv] at hok
      exact ⟨k, rfl, hv, (refetch_ok_elim hok).1⟩

/-- Every successful return path of `upsert_entity` leaves a well-formed
store holding exactly one row of the project at the candidate's file path.
`hwf1` is the well-formedness of the store after the concurrent writers of
the race window committed (the storage engine enforces the same unique
indexes on them). -/
theorem upsert_entity_ok_wf_count {extra : Row → Bool} {s : Store} {conc : List Row}
    {e : RowData} {s' : Store} {le : Loaded} (hwf : WF s) (hwf1 : WF (commit s conc))
    (hok : upsert_entity extra s conc e = .ok (s', le)) :
    matchCount s' e.project_id e.file_path = 1 ∧ WF s' := by
  rw [upsert_entity] at hok
  cases hfind : findPath s e.project_id e.file_path with
  | some r0 =>
    rw [hfind] at hok
    obtain ⟨hmem, hpid, hp⟩ := findPath_some_elim hfind
    obtain ⟨hs', hv⟩ := updateExisting_ok_elim hok
    subst hs'
    constructor
    · rw [matchCount_replaceRow hwf hmem rfl (by simp) (by simp)]
      exact matchCount_eq_one hwf hmem hpid hp
    · exact wf_replaceRow hwf rfl hv
  | none =>
    rw [hfind] at hok
    simp only [] at hok
    cases hv : violation extra (commit s conc) none (e.withId (commit s conc).next_id) with
    | none =>
      rw [hv] at hok
      obtain ⟨hs', _, _⟩ := refetch_ok_elim hok
      subst hs'
      have hcount1 : matchCount (commit s conc) e.project_id e.file_path = 0 := by
        rw [matchCount, List.countP_eq_zero]
        intro b hb hbp
        simp only [Bool.and_eq_true, beq_iff_eq] at hbp
        have := (violation_none_elim hv).1 b hb rfl (by simp [hbp.1])
        exact this.1 (by simp [hbp.2])
      constructor
      · rw [matchCount_insertRow, hcount1, if_pos (by simp)]
      · exact wf_insertRow hwf1 (by simp [commit]) hv
    | some err =>
      rw [hv] at hok
      cases hfind1 : findPath (commit s conc) e.project_id e.file_path with
      | some r1 =>
        rw [hfind1] at hok
        obtain ⟨hmem, hpid, hp⟩ := findPath_some_elim hfind1
        obtain ⟨hs', hv1⟩ := updateExisting_ok_elim hok
        subst hs'
        constructor
        · rw [matchCount_replaceRow hwf1 hmem rfl (by simp) (by simp)]
          exact matchCount_eq_one hwf1 hmem hpid hp
        · exact wf_replaceRow hwf1 rfl hv1
      | none =>
        rw [hfind1] at hok
        obtain ⟨k, _, hv1, hs'⟩ := handle_permalink_conflict_ok_elim hok
        subst hs'
        constructor
        · rw [matchCount_insertRow, matchCount_zero hfind1, if_pos (by simp)]
        · exact wf_insertRow hwf1 (by simp [commit]) hv1

theorem commit_nil (s : Store) : commit s [] = s := by
  simp [commit]

/-! ### Well-formedness through a whole sync pass -/

theorem wf_update_move_ok {extra : Row → Bool} {s : Store} {eid : Nat} {np : String}
    {npl : Option String} {s' : Store} (hwf : WF s)
    (hok : update_move extra s eid np npl = .ok s') : WF s' := by
  rw [update_move] at hok
  cases hf : s.entities.find? (fun b => b.id == eid) with
  | none =>
    rw [hf] at hok
    cases hok
    exact hwf
  | some r =>
    rw [hf] at hok
    simp only [] at hok
    cases hv : violation extra s (some eid) { r with file_path := np, permalink := npl } with
    | some err =>
      rw [hv] at hok
      cases hok
    | none =>
      rw [hv] at hok
      cases hok
      have hid : r.id = eid := by
        have := List.find?_some hf
        simpa using this
      exact wf_replaceRow hwf (by simp [hid]) hv

theorem wf_delete_by_file_path {s : Store} {pid : Nat} {p : String} (hwf : WF s) :
    WF (delete_by_file_path s pid p) := by
  have hsub : (delete_by_file_path s pid p).entities.Sublist s.entities :=
    List.filter_sublist _
  refine ⟨?_, ?_, ?_⟩
  · exact hwf.nodup.sublist (hsub.map _)
  · intro r hr
    exact hwf.lt_next r (hsub.mem hr)
  · exact hwf.ok.sublist hsub

theorem wf_handle_move_ok {extra : Row → Bool} {pid : Nat} {s : Store} {a b : String}
    {s' : Store} {t : Option (String × String)} (hwf : WF s)
    (hok : handle_move extra pid s a b = .ok (s', t)) : WF s' := by
  rw [handle_move] at hok
  cases hf : findPath s pid a with
  | none =>
    rw [hf] at hok
    cases hok
    exact hwf
  | some r =>
    rw [hf] at hok
    simp only [] at hok
    cases h1 : update_move extra s r.id b (some (generate_permalink b)) with
    | ok s1 =>
      rw [h1] at hok
      cases hok
      exact wf_update_move_ok hwf h1
    | error e1 =>
      rw [h1] at hok
      cases e1 <;> simp only [] at hok
      case uniqueFilePath =>
        cases h2 : update_move extra s r.id (freshPath s) none with
        | ok s2 =>
          rw [h2] at hok
          cases hok
          exact wf_update_move_ok hwf h2
        | error e2 =>
          rw [h2] at hok
          cases hok
      all_goals cases hok

theorem wf_resolveAll_ok {extra : Row → Bool} {pid : Nat} :
    ∀ {fuel : Nat} {s : Store} {pending : List (String × String)} {s' : Store}
      {pending' : List (String × String)}, WF s →
      resolveAll extra pid fuel s pending = .ok (s', pending') → WF s'
  | 0, s, pending, s', pending', hwf, hok => by
    rw [resolveAll] at hok
    cases hok
    exact hwf
  | fuel + 1, s, pending, s', pending', hwf, hok => by
    rw [resolveAll] at hok
    cases hfr : findResolvable s pid pending with
    | none =>
      rw [hfr] at hok
      cases hok
      exact hwf
    | some pr =>
      obtain ⟨⟨tmp, dest⟩, rest⟩ := pr
      rw [hfr] at hok
      simp only [] at hok
      cases hf : findPath s pid tmp with
      | none =>
        rw [hf] at hok
        exact wf_resolveAll_ok hwf hok
      | some r =>
        rw [hf] at hok
        simp only [] at hok
        cases hu : update_move extra s r.id dest (some (generate_permalink dest)) with
        | ok s1 =>
          rw [hu] at hok
          exact wf_resolveAll_ok (wf_update_move_ok hwf hu) hok
        | error e =>
          rw [hu] at hok
          cases hok

theorem wf_applyEvent_ok {extra : Row → Bool} {pid : Nat} {s : Store}
    {pending : List (String × String)} {ev : SyncEvent} {s' : Store}
    {pending' : List (String × String)} (hwf : WF s)
    (hok : applyEvent extra pid s pending ev = .ok (s', pending')) : WF s' := by
  cases ev with
  | upsert e =>
    rw [applyEvent] at hok
    cases hu : upsert_entity extra s [] e with
    | ok pr =>
      rw [hu] at hok
      cases hok
      exact (upsert_entity_ok_wf_count hwf (by rw [commit_nil]; exact hwf) hu).2
    | error err =>
      rw [hu] at hok
      cases hok
  | move a b =>
    rw [applyEvent] at hok
    cases hm : handle_move extra pid s a b with
    | ok pr =>
      obtain ⟨s1, t⟩ := pr
      rw [hm] at hok
      cases t <;> simp only [] at hok <;> cases hok <;> exact wf_handle_move_ok hwf hm
    | error err =>
      rw [hm] at hok
      cases hok
  | delete p =>
    rw [applyEvent] at hok
    cases hok
    exact wf_delete_by_file_path hwf

theorem wf_runEvents_ok {extra : Row → Bool} {pid : Nat} :
    ∀ {events : List SyncEvent} {s : Store} {pending : List (String × String)}
      {s' : Store} {pending' : List (String × String)}, WF s →
      runEvents extra pid s pending events = .ok (s', pending') → WF s'
  | [], s, pending, s', pending', hwf, hok => by
    rw [runEvents] at hok
    cases hok
    exact hwf
  | ev :: evs, s, pending, s', pending', hwf, hok => by
    rw [runEvents] at hok
    cases ha : applyEvent extra pid s pending ev with
    | ok pr =>
      obtain ⟨s1, pending1⟩ := pr
      rw [ha] at hok
      exact wf_runEvents_ok (wf_applyEvent_ok hwf ha) hok
    | error e =>
      rw [ha] at hok
      cases hok

/-- A completed sync pass leaves the store well-formed: no two entities of
a project share a file path or a (non-NULL) permalink. -/
theorem wf_sync_ok {extra : Row → Bool} {pid : Nat} {s : Store} {events : List SyncEvent}
    {s' : Store} (hwf : WF s) (hok : sync extra pid s events = .ok s') : WF s' := by
  rw [sync] at hok
  cases hr : runEvents extra pid s [] events with
  | error e =>
    rw [hr] at hok
    cases hok
  | ok pr =>
    obtain ⟨s1, pending⟩ := pr
    rw [hr] at hok
    simp only [] at hok
    cases hres : resolveAll extra pid pending.length s1 pending with
    | error e =>
      rw [hres] at hok
      cases hok
    | ok pr2 =>
      obtain ⟨s2, pending2⟩ := pr2
      rw [hres] at hok
      cases hok
      exact wf_resolveAll_ok (wf_runEvents_ok hwf hr) hres

/-! ### Executable well-formedness check for concrete stores -/

def rowOkB (a b : Row) : Bool :=
  a.project_id != b.project_id ||
    (a.file_path != b.file_path && (!a.permalink.isSome || a.permalink != b.permalink))

def pairwiseOkB : List Row → Bool
  | [] => true
  | a :: l => l.all (fun b => rowOkB a b) && pairwiseOkB l

def wfB (s : Store) : Bool :=
  decide (s.entities.map (fun r => r.id)).Nodup
    && s.entities.all (fun r => decide (r.id < s.next_id))
    && pairwiseOkB s.entities

theorem rowOk_of_rowOkB {a b : Row} (h : rowOkB a b = true) : RowOk a b := by
  rw [rowOkB] at h
  intro hpid
  simp only [Bool.or_eq_true, bne_iff_ne, ne_eq, Bool.and_eq_true, Bool.not_eq_true] at h
  rcases h with h | ⟨h1, h2⟩
  · exact absurd hpid h
  · refine ⟨h1, ?_⟩
    intro p hap hbp
    rcases h2 with h2 | h2
    · rw [hap] at h2
      simp at h2
    · exact h2 (hap.trans hbp.symm)

theorem pairwise_of_pairwiseOkB : ∀ {l : List Row}, pairwiseOkB l = true → l.Pairwise RowOk
  | [], _ => List.Pairwise.nil
  | a :: l, h => by
    rw [pairwiseOkB, Bool.and_eq_true] at h
    rw [List.pairwise_cons]
    refine ⟨?_, pairwise_of_pairwiseOkB h.2⟩
    intro b hb
    exact rowOk_of_rowOkB (List.all_eq_true.1 h.1 b hb)

theorem wf_of_wfB {s : Store} (h : wfB s = true) : WF s := by
  rw [wfB, Bool.and_eq_true, Bool.and_eq_true] at h
  refine ⟨of_decide_eq_true h.1.1, ?_, pairwise_of_pairwiseOkB h.2⟩
  intro r hr
  exact of_decide_eq_true (List.all_eq_true.1 h.1.2 r hr)

/-! ## Claim theorems -/

/-- C1: after a successful call to `upsert_entity` (even across the
check-then-act race window, `conc` being what a concurrent writer
committed), exactly one Entity of the project carries the candidate's
`file_path`, and the store satisfies the per-project uniqueness of
`file_path` and `permalink` (`WF`, whose `ok` field is exactly that
pairwise uniqueness); moreover every completed sync pass preserves those
no-duplicate invariants. -/
theorem upsert_entity_unique_guarantee
    (extra : Row → Bool) (s : Store) (conc : List Row) (e : RowData) (s' : Store)
    (le : Loaded) (pid : Nat) (sp : Store) (events : List SyncEvent) (sp' : Store)
    (hwf : WF s) (hwf1 : WF (commit s conc))
    (hok : upsert_entity extra s conc e = .ok (s', le))
    (hwfp : WF sp) (hsync : sync extra pid sp events = .ok sp') :
    matchCount s' e.project_id e.file_path = 1
    ∧ s'.entities.Pairwise RowOk
    ∧ sp'.entities.Pairwise RowOk := by
  obtain ⟨hc, hwf'⟩ := upsert_entity_ok_wf_count hwf hwf1 hok
  exact ⟨hc, hwf'.ok, (wf_sync_ok hwfp hsync).ok⟩

/-- Candidate row data used by concrete instantiations. -/
def rdA : RowData where
  project_id := 0
  file_path := "a.md"
  permalink := some "a"
  title := some "A"
  entity_type := some "note"
  entity_metadata := none
  content_type := some "text/markdown"
  checksum := some "c1"
  created_at := some 1
  updated_at := some 1

/-- Updated row data for the same file, used by concrete instantiations. -/
def rdA2 : RowData where
  project_id := 0
  file_path := "a.md"
  permalink := some "a2"
  title := some "A2"
  entity_type := some "note"
  entity_metadata := some "m"
  content_type := some "text/markdown"
  checksum := some "c2"
  created_at := some 9
  updated_at := some 2

def rowA : Row := rdA.withId 0

def store0 : Store := ⟨0, [], [], []⟩

def store1 : Store := ⟨1, [rowA], [⟨0, "cat", "fact"⟩], [⟨0, 0, "self"⟩]⟩

/-- Concrete instantiation of the C1 guarantee: a fresh insert into an
empty store and an empty sync pass. -/
theorem upsert_entity_unique_guarantee_witness :
    matchCount ⟨1, [rowA], [], []⟩ 0 "a.md" = 1
    ∧ (⟨1, [rowA], [], []⟩ : Store).entities.Pairwise RowOk
    ∧ store0.entities.Pairwise RowOk := by
  have h := upsert_entity_unique_guarantee (fun _ => true) store0 [] rdA
    ⟨1, [rowA], [], []⟩ ⟨rowA, [], [], []⟩ 0 store0 [] store0
    (wf_of_wfB (by decide)) (wf_of_wfB (by decide)) (by decide)
    (wf_of_wfB (by decide)) (by decide)
  exact h

/-- C7: when `upsert_entity` finds an existing Entity at the candidate's
`(project_id, file_path)`, it overwrites exactly the seven mutable fields
in place, preserves id, file_path, project_id, created_at, the observation
and relation tables, and the id sequence of the entities table, and
returns the Entity with its observations and both relation directions
eagerly loaded. -/
theorem upsert_entity_update_in_place
    (extra : Row → Bool) (s : Store) (conc : List Row) (r0 : Row) (e : RowData)
    (s' : Store) (le : Loaded) (hwf : WF s)
    (hfind : findPath s e.project_id e.file_path = some r0)
    (hok : upsert_entity extra s conc e = .ok (s', le)) :
    le.row.title = e.title ∧ le.row.entity_type = e.entity_type
    ∧ le.row.entity_metadata = e.entity_metadata
    ∧ le.row.content_type = e.content_type ∧ le.row.permalink = e.permalink
    ∧ le.row.checksum = e.checksum ∧ le.row.updated_at = e.updated_at
    ∧ le.row.id = r0.id ∧ le.row.file_path = r0.file_path
    ∧ le.row.project_id = r0.project_id ∧ le.row.created_at = r0.created_at
    ∧ s'.observations = s.observations ∧ s'.relations = s.relations
    ∧ s'.entities.map (fun r => r.id) = s.entities.map (fun r => r.id)
    ∧ le.observations = s'.observations.filter (fun o => o.entity_id == le.row.id)
    ∧ le.outgoing = s'.relations.filter (fun r => r.from_id == le.row.id)
    ∧ le.incoming = s'.relations.filter (fun r => r.to_id == le.row.id) := by
  rw [upsert_entity, hfind] at hok
  obtain ⟨hmem, hpid, hp⟩ := findPath_some_elim hfind
  have hok2 : updateExisting extra s r0 e = Except.ok (s', le) := hok
  obtain ⟨hs', hv⟩ := updateExisting_ok_elim hok2
  rw [updateExisting_ok hwf hmem hpid hp hv] at hok2
  cases hok2
  refine ⟨rfl, rfl, rfl, rfl, rfl, rfl, rfl, rfl, rfl, rfl, rfl, rfl, rfl, ?_, rfl, rfl, rfl⟩
  exact replaceRow_ids s r0.id (setFields r0 e) rfl

/-- Concrete instantiation of C7: updating the single row of a one-row
store in place. -/
theorem upsert_entity_update_in_place_witness :
    (load (replaceRow store1 0 (setFields rowA rdA2)) (setFields rowA rdA2)).row.title
      = some "A2"
    ∧ (load (replaceRow store1 0 (setFields rowA rdA2)) (setFields rowA rdA2)).row.created_at
      = some 1
    ∧ (replaceRow store1 0 (setFields rowA rdA2)).observations = store1.observations := by
  have h := upsert_entity_update_in_place (fun _ => true) store1 [] rowA rdA2
    (replaceRow store1 0 (setFields rowA rdA2))
    (load (replaceRow store1 0 (setFields rowA rdA2)) (setFields rowA rdA2))
    (wf_of_wfB (by decide)) (by decide) (by decide)
  refine ⟨h.1.trans rfl, ?_, ?_⟩
  · exact h.2.2.2.2.2.2.2.2.2.2.1.trans rfl
  · exact h.2.2.2.2.2.2.2.2.2.2.2.1

/-- C10: `update_entity_optimistic` on a file path with no Entity in the
repository's project returns None and performs no write: the store comes
back unchanged and nothing is inserted. -/
theorem update_entity_optimistic_absent_returns_none
    (extra : Row → Bool) (pid : Nat) (s : Store) (fp : String) (upd : EntityData)
    (cc : Option (List Col))
    (habs : s.entities.find? (fun b => b.file_path == fp && b.project_id == pid) = none) :
    update_entity_optimistic extra pid s fp upd cc = .ok (s, none) := by
  rw [update_entity_optimistic, habs]

/-- Concrete instantiation of C10: updating a missing path of a one-row
store is a no-op returning None. -/
theorem update_entity_optimistic_absent_returns_none_witness :
    update_entity_optimistic (fun _ => true) 0 store1 "missing.md"
      { title := some "T" } none = .ok (store1, none) :=
  update_entity_optimistic_absent_returns_none (fun _ => true) 0 store1 "missing.md"
    { title := some "T" } none (by decide)

/-- C6: a call to `upsert_entity_optimistic` whose input carries no
`file_path` raises before any write is performed: the insert statement
itself is rejected (NULL into the NOT NULL `file_path` column, modelled
from the spec's data model), and since an error aborts the session scope
atomically, the persisted store is unchanged (an `Except.error` result
carries no store). -/
theorem upsert_entity_optimistic_requires_file_path
    (extra : Row → Bool) (pid : Nat) (s : Store) (d : EntityData)
    (cc : Option (List Col)) (h : d.file_path = none) :
    upsert_entity_optimistic extra pid s d cc = .error .notNullFilePath := by
  by_cases hpn : d.project_id = none <;> simp [upsert_entity_optimistic, hpn, h]

/-- Concrete instantiation of C6: a dictionary with only a title is
rejected. -/
theorem upsert_entity_optimistic_requires_file_path_witness :
    upsert_entity_optimistic (fun _ => true) 0 store1 { title := some "T" } none
      = .error .notNullFilePath :=
  upsert_entity_optimistic_requires_file_path (fun _ => true) 0 store1
    { title := some "T" } none rfl

/-- C8: `upsert_entity_optimistic` issues one statement keyed on the
caller-specified conflict columns `cc` (defaulting to `file_path` when the
caller passes none); on conflict (the matched row agrees with the supplied
data on every conflict column) the DO UPDATE overwrites every supplied
field except the conflict-key columns and the surrogate id (which keep the
existing row's values; unsupplied fields also keep their values), replaces
the row in place and inserts nothing. -/
theorem upsert_entity_optimistic_conflict_update
    (extra : Row → Bool) (pid : Nat) (s : Store) (d : EntityData) (r0 : Row) (fp : String)
    (conflict_columns : Option (List Col)) (cc : List Col)
    (hcc : conflict_columns.getD [Col.file_path] = cc)
    (hwf : WF s) (hpid : d.project_id = some pid) (hfp : d.file_path = some fp)
    (hfpne : fp ≠ "")
    (hconf : findConflict s pid d cc = some r0)
    (hv : violation extra s (some r0.id) (mergeRow r0 d cc) = none) :
    upsert_entity_optimistic extra pid s d conflict_columns
      = .ok (replaceRow s r0.id (mergeRow r0 d cc),
          load (replaceRow s r0.id (mergeRow r0 d cc))
            (mergeRow r0 d cc))
    ∧ (mergeRow r0 d cc).id = r0.id
    ∧ (∀ c, c ∈ cc → colMatches r0 d c = true)
    ∧ (mergeRow r0 d cc).project_id
        = (if cc.contains Col.project_id then r0.project_id
           else d.project_id.getD r0.project_id)
    ∧ (mergeRow r0 d cc).file_path
        = (if cc.contains Col.file_path then r0.file_path
           else d.file_path.getD r0.file_path)
    ∧ (mergeRow r0 d cc).title
        = (if cc.contains Col.title then r0.title else fillField d.title r0.title)
    ∧ (mergeRow r0 d cc).entity_type
        = (if cc.contains Col.entity_type then r0.entity_type
           else fillField d.entity_type r0.entity_type)
    ∧ (mergeRow r0 d cc).entity_metadata
        = (if cc.contains Col.entity_metadata then r0.entity_metadata
           else fillField d.entity_metadata r0.entity_metadata)
    ∧ (mergeRow r0 d cc).content_type
        = (if cc.contains Col.content_type then r0.content_type
           else fillField d.content_type r0.content_type)
    ∧ (mergeRow r0 d cc).permalink
        = (if cc.contains Col.permalink then r0.permalink
           else fillField d.permalink r0.permalink)
    ∧ (mergeRow r0 d cc).checksum
        = (if cc.contains Col.checksum then r0.checksum
           else fillField d.checksum r0.checksum)
    ∧ (mergeRow r0 d cc).created_at
        = (if cc.contains Col.created_at then r0.created_at
           else fillField d.created_at r0.created_at)
    ∧ (mergeRow r0 d cc).updated_at
        = (if cc.contains Col.updated_at then r0.updated_at
           else fillField d.updated_at r0.updated_at)
    ∧ (replaceRow s r0.id (mergeRow r0 d cc)).entities.map (fun r => r.id)
        = s.entities.map (fun r => r.id) := by
  have hmem : r0 ∈ s.entities := List.mem_of_find?_eq_some hconf
  have hmatch := List.find?_some hconf
  simp only [Bool.and_eq_true, beq_iff_eq] at hmatch
  have hr0pid : r0.project_id = pid := hmatch.1
  have hall : ∀ c, c ∈ cc → colMatches r0 d c = true := by
    intro c hc
    exact List.all_eq_true.1 hmatch.2 c hc
  have hr0fp : cc.contains Col.file_path = true → r0.file_path = fp := by
    intro hc
    have hm := hall Col.file_path (List.mem_of_elem_eq_true hc)
    rw [colMatches, hfp] at hm
    simp only [beq_iff_eq, Option.some.injEq] at hm
    exact hm.symm
  have hmerge_pid : (mergeRow r0 d cc).project_id = pid := by
    simp only [mergeRow, pickV]
    by_cases hc : cc.contains Col.project_id = true
    · rw [if_pos hc]
      have hm := hall Col.project_id (List.mem_of_elem_eq_true hc)
      rw [colMatches, hpid] at hm
      simp only [beq_iff_eq, Option.some.injEq] at hm
      exact hm.symm
    · rw [if_neg hc, hpid]
      rfl
  have hmerge_fp : (mergeRow r0 d cc).file_path = fp := by
    simp only [mergeRow, pickV]
    by_cases hc : cc.contains Col.file_path = true
    · rw [if_pos hc]
      exact hr0fp hc
    · rw [if_neg hc, hfp]
      rfl
  have hwf' := wf_replaceRow hwf
    (show (mergeRow r0 d cc).id = r0.id from rfl) hv
  have hfind' : findPath (replaceRow s r0.id (mergeRow r0 d cc)) pid fp
      = some (mergeRow r0 d cc) :=
    findPath_eq_some hwf' (mem_replaceRow_self hmem rfl) hmerge_pid hmerge_fp
  refine ⟨?_, rfl, hall, rfl, rfl, rfl, rfl, rfl, rfl, rfl, rfl, rfl, rfl,
    replaceRow_ids s r0.id (mergeRow r0 d cc) rfl⟩
  rw [upsert_entity_optimistic]
  simp only [if_neg (by rw [hpid]; simp : ¬(d.project_id = none))]
  rw [hfp]
  simp only [executeUpsertStmt]
  rw [hcc, hpid]
  simp only [Option.getD_some]
  rw [hconf]
  simp only []
  rw [hv]
  simp only []
  rw [if_neg hfpne, refetch, hfind']

/-- Concrete instantiation of C8: a conflicting upsert keyed on the
caller-specified conflict column set `[permalink]` against the one-row
store updates the supplied fields and keeps the id and the conflict
column. -/
theorem upsert_entity_optimistic_conflict_update_witness :
    upsert_entity_optimistic (fun _ => true) 0 store1
      { project_id := some 0, file_path := some "a.md", permalink := some "a",
        title := some "B", checksum := some "c9" } (some [Col.permalink])
      = .ok (replaceRow store1 0
          (mergeRow rowA
            { project_id := some 0, file_path := some "a.md", permalink := some "a",
              title := some "B", checksum := some "c9" } [Col.permalink]),
          load (replaceRow store1 0
            (mergeRow rowA
              { project_id := some 0, file_path := some "a.md", permalink := some "a",
                title := some "B", checksum := some "c9" } [Col.permalink]))
            (mergeRow rowA
              { project_id := some 0, file_path := some "a.md", permalink := some "a",
                title := some "B", checksum := some "c9" } [Col.permalink]))
    ∧ (mergeRow rowA
        { project_id := some 0, file_path := some "a.md", permalink := some "a",
          title := some "B", checksum := some "c9" } [Col.permalink]).id = rowA.id
    ∧ (mergeRow rowA
        { project_id := some 0, file_path := some "a.md", permalink := some "a",
          title := some "B", checksum := some "c9" } [Col.permalink]).permalink
        = rowA.permalink := by
  have h := upsert_entity_optimistic_conflict_update (fun _ => true) 0 store1
    { project_id := some 0, file_path := some "a.md", permalink := some "a",
      title := some "B", checksum := some "c9" } rowA "a.md"
    (some [Col.permalink]) [Col.permalink] rfl
    (wf_of_wfB (by decide)) rfl rfl (by decide) (by decide) (by decide)
  exact ⟨h.1, h.2.1, by decide⟩

/-- Row data whose permalink "doc" is already claimed by a third Entity at
a different path. -/
def rdOther : RowData where
  project_id := 0
  file_path := "other.md"
  permalink := some "doc"
  title := none
  entity_type := none
  entity_metadata := none
  content_type := none
  checksum := none
  created_at := none
  updated_at := none

def rowOther : Row := rdOther.withId 0

/-- The row a concurrent writer inserts at the candidate's path. -/
def rdRace : RowData where
  project_id := 0
  file_path := "doc.md"
  permalink := some "doc-x"
  title := none
  entity_type := none
  entity_metadata := none
  content_type := none
  checksum := none
  created_at := none
  updated_at := none

def rowRace : Row := rdRace.withId 1

/-- The candidate entity for the race scenarios. -/
def rdCand : RowData where
  project_id := 0
  file_path := "doc.md"
  permalink := some "doc"
  title := some "C"
  entity_type := none
  entity_metadata := none
  content_type := none
  checksum := none
  created_at := none
  updated_at := none

def storeC3 : Store := ⟨1, [rowOther], [], []⟩

/-- C3 counterexample: the fresh insert raises a uniqueness violation and a
row with the candidate's `(project_id, file_path)` now exists (inserted
concurrently), yet the operation fails instead of returning the updated
row: the fallback update writes the candidate's permalink, which a third
Entity already holds, and that `IntegrityError` propagates uncaught. -/
theorem upsert_entity_race_can_still_fail :
    findPath storeC3 0 "doc.md" = none
    ∧ violation (fun _ => true) (commit storeC3 [rowRace]) none
        (rdCand.withId (commit storeC3 [rowRace]).next_id) = some .uniqueFilePath
    ∧ findPath (commit storeC3 [rowRace]) 0 "doc.md" = some rowRace
    ∧ upsert_entity (fun _ => true) storeC3 [rowRace] rdCand
        = .error .uniquePermalink := by
  decide

/-- C3 (amended): if the fresh insert raises a uniqueness violation and an
Entity with the same `(project_id, file_path)` now exists, `upsert_entity`
falls back to updating that Entity's mutable fields and returns it with
its id preserved — provided the fallback update itself violates no further
constraint; otherwise that violation propagates (see the counterexample). -/
theorem upsert_entity_race_fallback
    (extra : Row → Bool) (s : Store) (conc : List Row) (e : RowData) (r1 : Row)
    (hwf1 : WF (commit s conc))
    (hnone : findPath s e.project_id e.file_path = none)
    (hfind1 : findPath (commit s conc) e.project_id e.file_path = some r1)
    (hv : violation extra (commit s conc) (some r1.id) (setFields r1 e) = none) :
    upsert_entity extra s conc e
      = .ok (replaceRow (commit s conc) r1.id (setFields r1 e),
          load (replaceRow (commit s conc) r1.id (setFields r1 e)) (setFields r1 e))
    ∧ (setFields r1 e).id = r1.id := by
  obtain ⟨hm1, hp1, hf1⟩ := findPath_some_elim hfind1
  have hins : violation extra (commit s conc) none
      (e.withId (commit s conc).next_id) = some .uniqueFilePath := by
    rw [violation]
    rw [if_pos (List.any_eq_true.2 ⟨r1, hm1, by simp [notSelf, hp1, hf1]⟩)]
  rw [upsert_entity, hnone]
  simp only []
  rw [hins]
  simp only []
  rw [hfind1]
  simp only []
  rw [updateExisting_ok hwf1 hm1 hp1 hf1 hv]
  exact ⟨rfl, rfl⟩

/-- Concrete instantiation of the amended C3: the race against an empty
store falls back to updating the concurrently inserted row. -/
theorem upsert_entity_race_fallback_witness :
    upsert_entity (fun _ => true) store0 [rowRace] rdCand
      = .ok (replaceRow (commit store0 [rowRace]) rowRace.id (setFields rowRace rdCand),
          load (replaceRow (commit store0 [rowRace]) rowRace.id (setFields rowRace rdCand))
            (setFields rowRace rdCand))
    ∧ (setFields rowRace rdCand).id = rowRace.id :=
  upsert_entity_race_fallback (fun _ => true) store0 [rowRace] rdCand rowRace
    (wf_of_wfB (by decide)) (by decide) (by decide) (by decide)

/-- Minimality facts of the permalink-suffix search loop: the returned
suffix is free and every earlier suffix from the start was taken. -/
theorem findFreeSuffix_some_elim {s : Store} {pid : Nat} {base : String} :
    ∀ {fuel start k : Nat}, findFreeSuffix s pid base start fuel = some k →
      start ≤ k ∧ permalinkTaken s pid (suffixed base k) = false
      ∧ ∀ j, start ≤ j → j < k → permalinkTaken s pid (suffixed base j) = true
  | 0, start, k, h => by rw [findFreeSuffix] at h; cases h
  | fuel + 1, start, k, h => by
    rw [findFreeSuffix] at h
    by_cases ht : permalinkTaken s pid (suffixed base start) = true
    · rw [if_pos ht] at h
      obtain ⟨h1, h2, h3⟩ := findFreeSuffix_some_elim h
      refine ⟨by omega, h2, ?_⟩
      intro j hj1 hj2
      by_cases hje : j = start
      · rw [hje]; exact ht
      · exact h3 j (by omega) hj2
    · rw [if_neg ht] at h
      cases h
      refine ⟨Nat.le_refl _, by simpa using ht, ?_⟩
      intro j hj1 hj2
      omega

/-- Reference decimal-digit expansion of a natural number, used to show
`Nat.repr` is injective (so distinct suffixes yield distinct permalinks). -/
def decRepr (n : Nat) : List Char :=
  if n < 10 then [Nat.digitChar n]
  else decRepr (n / 10) ++ [Nat.digitChar (n % 10)]
termination_by n
decreasing_by
  exact Nat.div_lt_self (by omega) (by omega)

/-- Left inverse of the digit expansion: read a digit string back as a number. -/
def evalDigits (l : List Char) : Nat :=
  l.foldl (fun acc c => acc * 10 + (c.toNat - 48)) 0

theorem digitVal_digitChar : ∀ d, d < 10 → (Nat.digitChar d).toNat - 48 = d := by decide

theorem evalDigits_append_one (l : List Char) (c : Char) :
    evalDigits (l ++ [c]) = (evalDigits l) * 10 + (c.toNat - 48) := by
  simp [evalDigits, List.foldl_append]

theorem evalDigits_decRepr (n : Nat) : evalDigits (decRepr n) = n := by
  induction n using Nat.strong_induction_on with
  | _ n ih =>
    rw [decRepr]
    by_cases h : n < 10
    · rw [if_pos h]
      have : evalDigits [Nat.digitChar n] = (Nat.digitChar n).toNat - 48 := by
        simp [evalDigits]
      rw [this]
      exact digitVal_digitChar n h
    · rw [if_neg h, evalDigits_append_one,
        ih (n / 10) (Nat.div_lt_self (by omega) (by omega)),
        digitVal_digitChar (n % 10) (Nat.mod_lt n (by omega))]
      have := Nat.div_add_mod n 10
      omega

theorem decRepr_inj {n m : Nat} (h : decRepr n = decRepr m) : n = m := by
  rw [← evalDigits_decRepr n, ← evalDigits_decRepr m, h]

theorem toDigitsCore_eq_decRepr :
    ∀ (fuel n : Nat) (ds : List Char), n < fuel →
      Nat.toDigitsCore 10 fuel n ds = decRepr n ++ ds
  | 0, _, _, h => by omega
  | fuel + 1, n, ds, h => by
    simp only [Nat.toDigitsCore]
    by_cases h0 : n / 10 = 0
    · rw [if_pos h0]
      have hn : n < 10 := by omega
      rw [decRepr, if_pos hn, Nat.mod_eq_of_lt hn]
      rfl
    · rw [if_neg h0]
      have h2 : n / 10 < fuel := by omega
      rw [toDigitsCore_eq_decRepr fuel (n / 10) (Nat.digitChar (n % 10) :: ds) h2]
      have hn : ¬n < 10 := by omega
      conv_rhs => rw [decRepr]
      rw [if_neg hn, List.append_assoc]
      rfl

theorem repr_data (n : Nat) : (Nat.repr n).data = decRepr n := by
  show Nat.toDigits 10 n = decRepr n
  rw [Nat.toDigits, toDigitsCore_eq_decRepr (n + 1) n [] (by omega), List.append_nil]

theorem repr_data_inj {n m : Nat} (h : (Nat.repr n).data = (Nat.repr m).data) : n = m := by
  rw [repr_data, repr_data] at h
  exact decRepr_inj h

theorem suffixed_inj {base : String} {k j : Nat} (h : suffixed base k = suffixed base j) :
    k = j := by
  have hd := congrArg String.data h
  simp only [suffixed, String.data_append] at hd
  rw [List.append_assoc, List.append_assoc] at hd
  exact repr_data_inj (List.append_cancel_left (List.append_cancel_left hd))

theorem findFreeSuffix_none_elim {s : Store} {pid : Nat} {base : String} :
    ∀ {fuel start : Nat}, findFreeSuffix s pid base start fuel = none →
      ∀ j, start ≤ j → j < start + fuel → permalinkTaken s pid (suffixed base j) = true
  | 0, _, _, _, hj1, hj2 => by omega
  | fuel + 1, start, h, j, hj1, hj2 => by
    rw [findFreeSuffix] at h
    by_cases ht : permalinkTaken s pid (suffixed base start) = true
    · rw [if_pos ht] at h
      by_cases hje : j = start
      · rw [hje]; exact ht
      · exact findFreeSuffix_none_elim h j (by omega) (by omega)
    · rw [if_neg ht] at h
      cases h

/-- The suffix search always terminates within `|entities| + 1` attempts:
the suffixes are pairwise distinct, so by pigeonhole they cannot all be
taken by the finitely many stored permalinks. This discharges the fuel
bound used to model the source's unbounded `while` loop. -/
theorem findFreeSuffix_total (s : Store) (pid : Nat) (base : String) :
    ∃ k, findFreeSuffix s pid base 1 (s.entities.length + 1) = some k := by
  cases hf : findFreeSuffix s pid base 1 (s.entities.length + 1) with
  | some k => exact ⟨k, rfl⟩
  | none =>
    exfalso
    have htaken := fun j hj1 hj2 => findFreeSuffix_none_elim hf j hj1 hj2
    have hinj : Function.Injective (fun j : Nat => some (suffixed base j)) := by
      intro a b hab
      simp only [Option.some.injEq] at hab
      exact suffixed_inj hab
    have hnd : ((List.range' 1 (s.entities.length + 1)).map
        (fun j => some (suffixed base j))).Nodup :=
      List.Nodup.map hinj (List.nodup_range' 1 (s.entities.length + 1))
    have hsub : ((List.range' 1 (s.entities.length + 1)).map
          (fun j => some (suffixed base j)))
        ⊆ s.entities.map (fun r => r.permalink) := by
      intro x hx
      simp only [List.mem_map] at hx
      obtain ⟨j, hj, rfl⟩ := hx
      rw [List.mem_range'] at hj
      obtain ⟨i, hi, rfl⟩ := hj
      have ht := htaken (1 + 1 * i) (by omega) (by omega)
      rw [permalinkTaken, List.any_eq_true] at ht
      obtain ⟨b, hb, hbp⟩ := ht
      simp only [Bool.and_eq_true, beq_iff_eq] at hbp
      exact List.mem_map.2 ⟨b, hb, hbp.2⟩
    have hc1 : ((List.range' 1 (s.entities.length + 1)).map
        (fun j => some (suffixed base j))).toFinset.card = s.entities.length + 1 := by
      rw [List.toFinset_card_of_nodup hnd]
      simp
    have hc2 : (s.entities.map (fun r => r.permalink)).toFinset.card
        ≤ s.entities.length := by
      calc (s.entities.map (fun r => r.permalink)).toFinset.card
          ≤ (s.entities.map (fun r => r.permalink)).length := List.toFinset_card_le _
        _ = s.entities.length := by simp
    have hsub2 : ((List.range' 1 (s.entities.length + 1)).map
          (fun j => some (suffixed base j))).toFinset
        ⊆ (s.entities.map (fun r => r.permalink)).toFinset := by
      intro x hx
      rw [List.mem_toFinset] at hx ⊢
      exact hsub hx
    have hcle := Finset.card_le_card hsub2
    omega

/-- C4: on a permalink-only uniqueness violation, `upsert_entity` appends
the first free numeric suffix to the candidate permalink: the suffix
search terminates (by pigeonhole over the distinct suffixes), returns the
least free suffix (every earlier suffix was taken) and the candidate is
inserted with it; the candidate's file path is untouched. With base-1
free, the second file receives base-1. -/
theorem upsert_entity_permalink_conflict_suffixes
    (s : Store) (e : RowData) (base : String)
    (hbase : e.permalink = some base)
    (hnopath : findPath s e.project_id e.file_path = none)
    (htaken : permalinkTaken s e.project_id base = true) :
    ∃ k, findFreeSuffix s e.project_id base 1 (s.entities.length + 1) = some k
    ∧ upsert_entity (fun _ => true) s [] e
      = .ok (insertRow s
            (({ e with permalink := some (suffixed base k) } : RowData).withId s.next_id),
          load (insertRow s
              (({ e with permalink := some (suffixed base k) } : RowData).withId s.next_id))
            (({ e with permalink := some (suffixed base k) } : RowData).withId s.next_id))
    ∧ (({ e with permalink := some (suffixed base k) } : RowData).withId s.next_id).file_path
        = e.file_path
    ∧ 1 ≤ k
    ∧ permalinkTaken s e.project_id (suffixed base k) = false
    ∧ (∀ j, 1 ≤ j → j < k → permalinkTaken s e.project_id (suffixed base j) = true) := by
  obtain ⟨k, hfree⟩ := findFreeSuffix_total s e.project_id base
  refine ⟨k, hfree, ?_⟩
  obtain ⟨hk1, hkfree, hkmins⟩ := findFreeSuffix_some_elim hfree
  have hpathfalse : ∀ (r' : Row), r'.project_id = e.project_id → r'.file_path = e.file_path →
      (s.entities.any fun b => notSelf none b && b.project_id == r'.project_id
        && b.file_path == r'.file_path) = false := by
    intro r' hrp hrf
    rw [List.any_eq_false]
    intro b hb hbp
    simp only [notSelf, Bool.true_and, Bool.and_eq_true, beq_iff_eq] at hbp
    exact findPath_none_elim hnopath b hb (hbp.1.trans hrp)
      (hbp.2.trans hrf)
  have hins : violation (fun _ => true) s none (e.withId s.next_id)
      = some .uniquePermalink := by
    rw [violation]
    rw [if_neg (by rw [hpathfalse (e.withId s.next_id) rfl rfl]; simp)]
    rw [if_pos]
    rw [permalinkTaken, List.any_eq_true] at htaken
    obtain ⟨b, hb, hbp⟩ := htaken
    simp only [Bool.and_eq_true, beq_iff_eq] at hbp
    refine List.any_eq_true.2 ⟨b, hb, ?_⟩
    simp [notSelf, hbp.1, hbp.2, hbase]
  have hbase' : permalinkBase e.permalink = base := by rw [hbase]; rfl
  have hpermfalse : (s.entities.any fun b =>
      notSelf none b
      && b.project_id == (({ e with permalink := some (suffixed base k) }
          : RowData).withId s.next_id).project_id
      && (({ e with permalink := some (suffixed base k) }
          : RowData).withId s.next_id).permalink.isSome
      && b.permalink == (({ e with permalink := some (suffixed base k) }
          : RowData).withId s.next_id).permalink) = false := by
    rw [List.any_eq_false]
    intro b hb hbp
    simp only [notSelf, Bool.true_and, Bool.and_eq_true, beq_iff_eq, withId_project_id,
      withId_permalink] at hbp
    rw [permalinkTaken, List.any_eq_false] at hkfree
    refine hkfree b hb ?_
    simp only [Bool.and_eq_true, beq_iff_eq]
    exact ⟨hbp.1.1, hbp.2⟩
  have hv' : violation (fun _ => true) s none
      (({ e with permalink := some (suffixed base k) } : RowData).withId s.next_id)
      = none := by
    rw [violation]
    rw [if_neg (by
      rw [hpathfalse (({ e with permalink := some (suffixed base k) }
        : RowData).withId s.next_id) rfl rfl]
      simp)]
    rw [if_neg (by rw [hpermfalse]; simp)]
    simp
  refine ⟨?_, rfl, hk1, hkfree, hkmins⟩
  rw [upsert_entity, hnopath]
  simp only []
  rw [commit_nil, hins]
  simp only []
  rw [hnopath]
  simp only []
  rw [handle_permalink_conflict, hbase', hfree]
  simp only []
  rw [hv']
  simp only []
  rw [refetch, findPath_insertRow_self hnopath rfl rfl]

/-- Concrete instantiation of C4 (spec scenario 4): the second file whose
title normalizes to the taken base "doc" receives "doc-1". -/
theorem upsert_entity_permalink_conflict_suffixes_witness :
    upsert_entity (fun _ => true) storeC3 [] rdCand
      = .ok (insertRow storeC3
            (({ rdCand with permalink := some (suffixed "doc" 1) } : RowData).withId 1),
          load (insertRow storeC3
              (({ rdCand with permalink := some (suffixed "doc" 1) } : RowData).withId 1))
            (({ rdCand with permalink := some (suffixed "doc" 1) } : RowData).withId 1))
    ∧ (({ rdCand with permalink := some (suffixed "doc" 1) } : RowData).withId 1).file_path
        = rdCand.file_path
    ∧ suffixed "doc" 1 = "doc-1" := by
  obtain ⟨k, hfree, h1, h2, -⟩ :=
    upsert_entity_permalink_conflict_suffixes storeC3 rdCand "doc" rfl (by decide) (by decide)
  have hone : findFreeSuffix storeC3 0 "doc" 1 (storeC3.entities.length + 1) = some 1 := by
    decide
  cases Option.some.inj (hone.symm.trans hfree)
  exact ⟨h1, h2, by decide⟩

/-- C5: a constraint violation that is neither a `file_path` conflict nor a
permalink collision is re-raised to the caller unchanged by every write
operation of the engine — by `upsert_entity` (the candidate fails only the
unrelated constraint `extra`, which does not depend on the permalink; the
engine's permalink retry cannot absorb it and the same `otherIntegrity`
error surfaces), by `upsert_entity_optimistic` (the single upsert
statement has no exception handling at all, so the violation raised by the
statement propagates as-is, for any caller-specified conflict columns) and
by `handle_move` (any update error other than the `file_path` uniqueness
violation propagates as-is). -/
theorem unrelated_integrity_violation_reraised
    (extra : Row → Bool) (s : Store) (e : RowData) (base : String)
    (extraC : Row → Bool) (pidC : Nat) (sC : Store) (dC : EntityData)
    (ccC : Option (List Col))
    (extraB : Row → Bool) (pid : Nat) (sB : Store) (rB : Row)
    (oldP newP : String) (err : Err)
    (hext : ∀ (r : Row) (p : Option String), extra { r with permalink := p } = extra r)
    (hbase : e.permalink = some base)
    (hnopath : findPath s e.project_id e.file_path = none)
    (hnoperm : permalinkTaken s e.project_id base = false)
    (hextra : extra (e.withId s.next_id) = false)
    (hpidC : dC.project_id = some pidC)
    (hfpC : dC.file_path.isSome = true)
    (hnoconfC : findConflict sC pidC dC (ccC.getD [Col.file_path]) = none)
    (hvC : violation extraC sC none (dC.toRow sC.next_id pidC) = some .otherIntegrity)
    (hfindB : findPath sB pid oldP = some rB)
    (hupd : update_move extraB sB rB.id newP (some (generate_permalink newP))
        = .error err)
    (herr : err ≠ .uniqueFilePath) :
    violation extra s none (e.withId s.next_id) = some .otherIntegrity
    ∧ upsert_entity extra s [] e = .error .otherIntegrity
    ∧ upsert_entity_optimistic extraC pidC sC dC ccC = .error .otherIntegrity
    ∧ handle_move extraB pid sB oldP newP = .error err := by
  have hpathfalse : ∀ (r' : Row), r'.project_id = e.project_id → r'.file_path = e.file_path →
      (s.entities.any fun b => notSelf none b && b.project_id == r'.project_id
        && b.file_path == r'.file_path) = false := by
    intro r' hrp hrf
    rw [List.any_eq_false]
    intro b hb hbp
    simp only [notSelf, Bool.true_and, Bool.and_eq_true, beq_iff_eq] at hbp
    exact findPath_none_elim hnopath b hb (hbp.1.trans hrp) (hbp.2.trans hrf)
  have hpermfalse : ∀ (r' : Row), r'.project_id = e.project_id →
      ∀ q : String, r'.permalink = some q → permalinkTaken s e.project_id q = false →
      (s.entities.any fun b => notSelf none b && b.project_id == r'.project_id
        && r'.permalink.isSome && b.permalink == r'.permalink) = false := by
    intro r' hrp q hq hfree
    rw [List.any_eq_false]
    intro b hb hbp
    simp only [notSelf, Bool.true_and, Bool.and_eq_true, beq_iff_eq] at hbp
    rw [permalinkTaken, List.any_eq_false] at hfree
    refine hfree b hb ?_
    simp only [Bool.and_eq_true, beq_iff_eq]
    refine ⟨hbp.1.1.trans hrp, ?_⟩
    rw [hbp.2, hq]
  have hins : violation extra s none (e.withId s.next_id) = some .otherIntegrity := by
    rw [violation]
    rw [if_neg (by rw [hpathfalse (e.withId s.next_id) rfl rfl]; simp)]
    rw [if_neg (by
      rw [hpermfalse (e.withId s.next_id) rfl base (by simp [hbase]) hnoperm]
      simp)]
    rw [if_neg (by rw [hextra]; simp)]
  have hbase' : permalinkBase e.permalink = base := by rw [hbase]; rfl
  obtain ⟨k, hfreek⟩ := findFreeSuffix_total s e.project_id base
  have hkfree : permalinkTaken s e.project_id (suffixed base k) = false :=
    (findFreeSuffix_some_elim hfreek).2.1
  have hextra1 : extra (({ e with permalink := some (suffixed base k) }
      : RowData).withId s.next_id) = false := by
    have h2 := hext (e.withId s.next_id) (some (suffixed base k))
    have h3 : extra (({ e with permalink := some (suffixed base k) }
        : RowData).withId s.next_id) = extra (e.withId s.next_id) := h2
    rw [h3, hextra]
  have hv' : violation extra s none
      (({ e with permalink := some (suffixed base k) } : RowData).withId s.next_id)
      = some .otherIntegrity := by
    rw [violation]
    rw [if_neg (by
      rw [hpathfalse (({ e with permalink := some (suffixed base k) }
        : RowData).withId s.next_id) rfl rfl]
      simp)]
    rw [if_neg (by
      rw [hpermfalse (({ e with permalink := some (suffixed base k) }
        : RowData).withId s.next_id) rfl (suffixed base k) rfl hkfree]
      simp)]
    rw [if_neg (by rw [hextra1]; simp)]
  refine ⟨hins, ?_, ?_, ?_⟩
  · rw [upsert_entity, hnopath]
    simp only []
    rw [commit_nil, hins]
    simp only []
    rw [hnopath]
    simp only []
    rw [handle_permalink_conflict, hbase', hfreek]
    simp only []
    rw [hv']
  · rw [upsert_entity_optimistic]
    simp only [if_neg (by rw [hpidC]; simp : ¬(dC.project_id = none))]
    obtain ⟨fpC, hfp⟩ := Option.isSome_iff_exists.1 hfpC
    rw [hfp]
    simp only [executeUpsertStmt]
    rw [hpidC]
    simp only [Option.getD_some]
    rw [hnoconfC]
    simp only []
    rw [hvC]
  · rw [handle_move, hfindB]
    simp only []
    rw [hupd]
    cases err with
    | uniqueFilePath => exact absurd rfl herr
    | uniquePermalink => rfl
    | otherIntegrity => rfl
    | notNullFilePath => rfl
    | valueError => rfl
    | runtimeError => rfl
    | fuelExhausted => rfl

/-- Candidate whose title trips the modelled unrelated constraint. -/
def rdBad : RowData where
  project_id := 0
  file_path := "b.md"
  permalink := some "zzz"
  title := some "bad"
  entity_type := none
  entity_metadata := none
  content_type := none
  checksum := none
  created_at := none
  updated_at := none

/-- Concrete instantiation of C5: a NOT-NULL-like constraint on the title
(modelled by `extra`) fails on an `upsert_entity` insert into an empty
store, on an `upsert_entity_optimistic` statement against an empty store,
and on a move, and all three surface unchanged. -/
theorem unrelated_integrity_violation_reraised_witness :
    violation (fun r => r.title != some "bad") store0 none (rdBad.withId 0)
      = some .otherIntegrity
    ∧ upsert_entity (fun r => r.title != some "bad") store0 [] rdBad
      = .error .otherIntegrity
    ∧ upsert_entity_optimistic (fun r => r.title != some "bad") 0 store0
        { project_id := some 0, file_path := some "b.md", title := some "bad" } none
      = .error .otherIntegrity
    ∧ handle_move (fun r => r.title != some "A") 0 store1 "a.md" "b.md"
      = .error .otherIntegrity := by
  have h := unrelated_integrity_violation_reraised
    (fun r => r.title != some "bad") store0 rdBad "zzz"
    (fun r => r.title != some "bad") 0 store0
    { project_id := some 0, file_path := some "b.md", title := some "bad" } none
    (fun r => r.title != some "A") 0 store1 rowA "a.md" "b.md" .otherIntegrity
    (fun r p => rfl) rfl (by decide) (by decide) (by decide)
    rfl (by decide) (by decide) (by decide)
    (by decide) (by decide) (by decide)
  exact h

/-! ### Helpers for the swap theorem -/

theorem rowOk_symmetric : Symmetric RowOk := by
  intro x y h
  exact RowOk_symm h

theorem foldr_paths_le {r : Row} :
    ∀ {l : List Row}, r ∈ l →
      r.file_path.data.length ≤ (l.foldr (fun x acc => x.file_path.data ++ acc) []).length
  | a :: l, h => by
    simp only [List.foldr_cons, List.length_append]
    rcases List.mem_cons.1 h with rfl | h
    · omega
    · have := foldr_paths_le h
      omega

/-- The placeholder path is distinct from every file path in the store. -/
theorem freshPath_not_taken {s : Store} {r : Row} (hr : r ∈ s.entities) :
    r.file_path ≠ freshPath s := by
  intro he
  have hlen : r.file_path.data.length = (freshPath s).data.length := by rw [he]
  have hdata : (freshPath s).data
      = '#' :: s.entities.foldr (fun x acc => x.file_path.data ++ acc) [] := rfl
  rw [hdata] at hlen
  simp only [List.length_cons] at hlen
  have := foldr_paths_le hr
  omega

theorem find?_id_eq_some {s : Store} (hwf : WF s) {x : Row} (hx : x ∈ s.entities) :
    s.entities.find? (fun b => b.id == x.id) = some x := by
  cases hf : s.entities.find? (fun b => b.id == x.id) with
  | none =>
    rw [List.find?_eq_none] at hf
    exact absurd (by simp) (hf x hx)
  | some b =>
    have hm := List.mem_of_find?_eq_some hf
    have hp := List.find?_some hf
    simp only [beq_iff_eq] at hp
    rw [uniqueId hwf hm hx hp]

theorem mem_replaceRow_other {s : Store} {i : Nat} {r' x : Row} (hx : x ∈ s.entities)
    (hne : x.id ≠ i) : x ∈ (replaceRow s i r').entities := by
  rw [replaceRow]
  exact List.mem_map.2 ⟨x, hx, by simp [hne]⟩

theorem mem_replaceRow_cases {s : Store} {i : Nat} {r' x : Row}
    (hx : x ∈ (replaceRow s i r').entities) :
    x = r' ∨ (x ∈ s.entities ∧ x.id ≠ i) := by
  obtain ⟨y, hy, he⟩ := mem_replaceRow hx
  by_cases hyi : (y.id == i) = true
  · left
    rw [he, if_pos hyi]
  · right
    rw [he, if_neg hyi]
    exact ⟨hy, by simpa using hyi⟩

@[simp] theorem moveRow_id (r : Row) (p : String) (q : Option String) :
    ({ r with file_path := p, permalink := q } : Row).id = r.id := rfl

@[simp] theorem moveRow_project_id (r : Row) (p : String) (q : Option String) :
    ({ r with file_path := p, permalink := q } : Row).project_id = r.project_id := rfl

@[simp] theorem moveRow_file_path (r : Row) (p : String) (q : Option String) :
    ({ r with file_path := p, permalink := q } : Row).file_path = p := rfl

@[simp] theorem moveRow_permalink (r : Row) (p : String) (q : Option String) :
    ({ r with file_path := p, permalink := q } : Row).permalink = q := rfl

/-- C2: applying the moves A→B and B→A in one sync pass swaps the two
Entities in place — the first move parks its Entity at the unique
placeholder, the second move lands directly, and placeholder resolution
finishes the swap — with both surrogate ids preserved and no Entity
deleted or recreated (the id sequence of the entities table is unchanged).
The permalink side conditions say the recomputed permalinks collide with
no third Entity. -/
theorem sync_swap_preserves_ids
    (pid : Nat) (s : Store) (eA eB : Row) (A B : String)
    (hwf : WF s)
    (hA : eA ∈ s.entities) (hApid : eA.project_id = pid) (hAp : eA.file_path = A)
    (hB : eB ∈ s.entities) (hBpid : eB.project_id = pid) (hBp : eB.file_path = B)
    (hAB : A ≠ B)
    (hgp : generate_permalink A ≠ generate_permalink B)
    (hother : ∀ r ∈ s.entities, r.id ≠ eA.id → r.id ≠ eB.id → r.project_id = pid →
      r.permalink ≠ some (generate_permalink A)
      ∧ r.permalink ≠ some (generate_permalink B)) :
    ∃ s', sync (fun _ => true) pid s [.move A B, .move B A] = .ok s'
      ∧ (∃ ra ∈ s'.entities, ra.id = eA.id ∧ ra.file_path = B)
      ∧ (∃ rb ∈ s'.entities, rb.id = eB.id ∧ rb.file_path = A)
      ∧ s'.entities.map (fun r => r.id) = s.entities.map (fun r => r.id) := by
  have hrowAB : eA ≠ eB := by
    intro he
    exact hAB ((hAp.symm.trans (congrArg (fun r : Row => r.file_path) he)).trans hBp)
  have hid : eA.id ≠ eB.id := fun he => hrowAB (uniqueId hwf hA hB he)
  have hpathA : ∀ b ∈ s.entities, b.id ≠ eA.id → b.project_id = pid → b.file_path ≠ A := by
    intro b hb hbid hbpid hbp
    have hbe : b ≠ eA := fun he => hbid (congrArg Row.id he)
    have hok := hwf.ok.forall rowOk_symmetric hb hA hbe
    exact (hok (hbpid.trans hApid.symm)).1 (hbp.trans hAp.symm)
  have hpathB : ∀ b ∈ s.entities, b.id ≠ eB.id → b.project_id = pid → b.file_path ≠ B := by
    intro b hb hbid hbpid hbp
    have hbe : b ≠ eB := fun he => hbid (congrArg Row.id he)
    have hok := hwf.ok.forall rowOk_symmetric hb hB hbe
    exact (hok (hbpid.trans hBpid.symm)).1 (hbp.trans hBp.symm)
  have hAtmp : A ≠ freshPath s := hAp ▸ freshPath_not_taken hA
  have hBtmp : B ≠ freshPath s := hBp ▸ freshPath_not_taken hB
  -- step 1: move A → B hits the occupied destination and parks at the placeholder
  have hfindA : findPath s pid A = some eA := findPath_eq_some hwf hA hApid hAp
  have hfid_A : s.entities.find? (fun b => b.id == eA.id) = some eA :=
    find?_id_eq_some hwf hA
  have hviol1 : violation (fun _ => true) s (some eA.id)
      { eA with file_path := B, permalink := some (generate_permalink B) }
      = some .uniqueFilePath := by
    rw [violation]
    rw [if_pos (List.any_eq_true.2 ⟨eB, hB, by
      simp [notSelf, hBp, hBpid, hApid, Ne.symm hid]⟩)]
  have hmv1 : update_move (fun _ => true) s eA.id B (some (generate_permalink B))
      = .error .uniqueFilePath := by
    rw [update_move, hfid_A]
    simp only []
    rw [hviol1]
  have hviol2 : violation (fun _ => true) s (some eA.id)
      { eA with file_path := freshPath s, permalink := (none : Option String) }
      = none := by
    rw [violation]
    rw [if_neg (by
      intro hcon
      obtain ⟨b, hb, hbp⟩ := List.any_eq_true.1 hcon
      simp only [notSelf, Bool.and_eq_true, beq_iff_eq, bne_iff_ne, ne_eq,
        moveRow_project_id, moveRow_file_path] at hbp
      exact freshPath_not_taken hb hbp.2)]
    rw [if_neg (by
      intro hcon
      obtain ⟨b, hb, hbp⟩ := List.any_eq_true.1 hcon
      simp [notSelf, moveRow_permalink] at hbp)]
    simp
  have hmv2 : update_move (fun _ => true) s eA.id (freshPath s) none
      = .ok (replaceRow s eA.id
          { eA with file_path := freshPath s, permalink := (none : Option String) }) := by
    rw [update_move, hfid_A]
    simp only []
    rw [hviol2]
  have hhm1 : handle_move (fun _ => true) pid s A B
      = .ok (replaceRow s eA.id
            { eA with file_path := freshPath s, permalink := (none : Option String) },
          some (freshPath s, B)) := by
    rw [handle_move, hfindA]
    simp only []
    rw [hmv1]
    simp only []
    rw [hmv2]
  -- the store after parking
  have hwf2 : WF (replaceRow s eA.id
      { eA with file_path := freshPath s, permalink := (none : Option String) }) :=
    wf_replaceRow hwf rfl hviol2
  have hmemB2 : eB ∈ (replaceRow s eA.id
      { eA with file_path := freshPath s, permalink := (none : Option String) }).entities :=
    mem_replaceRow_other hB (Ne.symm hid)
  have hmemR1 : ({ eA with file_path := freshPath s, permalink := (none : Option String) }
      : Row) ∈ (replaceRow s eA.id
      { eA with file_path := freshPath s, permalink := (none : Option String) }).entities :=
    mem_replaceRow_self hA rfl
  -- step 2: move B → A lands directly
  have hfindB2 : findPath (replaceRow s eA.id
      { eA with file_path := freshPath s, permalink := (none : Option String) }) pid B
      = some eB := findPath_eq_some hwf2 hmemB2 hBpid hBp
  have hfid_B2 : ((replaceRow s eA.id
      { eA with file_path := freshPath s, permalink := (none : Option String) }).entities.find?
      (fun b => b.id == eB.id)) = some eB :=
    find?_id_eq_some hwf2 hmemB2
  have hviol3 : violation (fun _ => true) (replaceRow s eA.id
      { eA with file_path := freshPath s, permalink := (none : Option String) })
      (some eB.id) { eB with file_path := A, permalink := some (generate_permalink A) }
      = none := by
    rw [violation]
    rw [if_neg (by
      intro hcon
      obtain ⟨b, hb, hbp⟩ := List.any_eq_true.1 hcon
      simp only [notSelf, Bool.and_eq_true, beq_iff_eq, bne_iff_ne, ne_eq,
        moveRow_project_id, moveRow_file_path] at hbp
      rcases mem_replaceRow_cases hb with rfl | ⟨hbs, hbne⟩
      · exact hAtmp ((by simpa using hbp.2 : freshPath s = A)).symm
      · exact hpathA b hbs hbne (hbp.1.2.trans hBpid) hbp.2)]
    rw [if_neg (by
      intro hcon
      obtain ⟨b, hb, hbp⟩ := List.any_eq_true.1 hcon
      simp only [notSelf, Bool.and_eq_true, beq_iff_eq, bne_iff_ne, ne_eq,
        moveRow_project_id, moveRow_permalink, Option.isSome_some] at hbp
      rcases mem_replaceRow_cases hb with rfl | ⟨hbs, hbne⟩
      · simp at hbp
      · exact (hother b hbs hbne hbp.1.1.1 (hbp.1.1.2.trans hBpid)).1 hbp.2)]
    simp
  have hmv3 : update_move (fun _ => true) (replaceRow s eA.id
      { eA with file_path := freshPath s, permalink := (none : Option String) })
      eB.id A (some (generate_permalink A))
      = .ok (replaceRow (replaceRow s eA.id
            { eA with file_path := freshPath s, permalink := (none : Option String) })
          eB.id { eB with file_path := A, permalink := some (generate_permalink A) }) := by
    rw [update_move, hfid_B2]
    simp only []
    rw [hviol3]
  have hhm2 : handle_move (fun _ => true) pid (replaceRow s eA.id
      { eA with file_path := freshPath s, permalink := (none : Option String) }) B A
      = .ok (replaceRow (replaceRow s eA.id
            { eA with file_path := freshPath s, permalink := (none : Option String) })
          eB.id { eB with file_path := A, permalink := some (generate_permalink A) },
          none) := by
    rw [handle_move, hfindB2]
    simp only []
    rw [hmv3]
  -- the store after the second move
  have hwf3 : WF (replaceRow (replaceRow s eA.id
      { eA with file_path := freshPath s, permalink := (none : Option String) })
      eB.id { eB with file_path := A, permalink := some (generate_permalink A) }) :=
    wf_replaceRow hwf2 rfl hviol3
  have hmemR1_3 : ({ eA with file_path := freshPath s, permalink := (none : Option String) }
      : Row) ∈ (replaceRow (replaceRow s eA.id
      { eA with file_path := freshPath s, permalink := (none : Option String) })
      eB.id { eB with file_path := A, permalink := some (generate_permalink A) }).entities :=
    mem_replaceRow_other hmemR1 (by simp [hid])
  have hmemR2_3 : ({ eB with file_path := A, permalink := some (generate_permalink A) }
      : Row) ∈ (replaceRow (replaceRow s eA.id
      { eA with file_path := freshPath s, permalink := (none : Option String) })
      eB.id { eB with file_path := A, permalink := some (generate_permalink A) }).entities :=
    mem_replaceRow_self hmemB2 rfl
  have hfind_tmp3 : findPath (replaceRow (replaceRow s eA.id
      { eA with file_path := freshPath s, permalink := (none : Option String) })
      eB.id { eB with file_path := A, permalink := some (generate_permalink A) })
      pid (freshPath s)
      = some { eA with file_path := freshPath s, permalink := (none : Option String) } :=
    findPath_eq_some hwf3 hmemR1_3 (by simp [hApid]) (by simp)
  have hfid_r1_3 : ((replaceRow (replaceRow s eA.id
      { eA with file_path := freshPath s, permalink := (none : Option String) })
      eB.id { eB with file_path := A, permalink := some (generate_permalink A) }).entities.find?
      (fun b => b.id == eA.id))
      = some { eA with file_path := freshPath s, permalink := (none : Option String) } := by
    have h := find?_id_eq_some hwf3 hmemR1_3
    simpa using h
  have hfindB3 : findPath (replaceRow (replaceRow s eA.id
      { eA with file_path := freshPath s, permalink := (none : Option String) })
      eB.id { eB with file_path := A, permalink := some (generate_permalink A) })
      pid B = none := by
    rw [findPath, List.find?_eq_none]
    intro b hb hbp
    simp only [Bool.and_eq_true, beq_iff_eq] at hbp
    rcases mem_replaceRow_cases hb with rfl | ⟨hb2, hbne2⟩
    · exact hAB ((by simpa using hbp.2 : A = B))
    · rcases mem_replaceRow_cases hb2 with rfl | ⟨hbs, hbne1⟩
      · exact hBtmp ((by simpa using hbp.2 : freshPath s = B)).symm
      · exact hpathB b hbs hbne2 hbp.1 hbp.2
  have hres_found : findResolvable (replaceRow (replaceRow s eA.id
      { eA with file_path := freshPath s, permalink := (none : Option String) })
      eB.id { eB with file_path := A, permalink := some (generate_permalink A) })
      pid [(freshPath s, B)] = some ((freshPath s, B), []) := by
    rw [findResolvable]
    rw [if_pos (by rw [hfindB3]; rfl)]
  have hviol4 : violation (fun _ => true) (replaceRow (replaceRow s eA.id
      { eA with file_path := freshPath s, permalink := (none : Option String) })
      eB.id { eB with file_path := A, permalink := some (generate_permalink A) })
      (some eA.id)
      { ({ eA with file_path := freshPath s, permalink := (none : Option String) } : Row)
        with file_path := B, permalink := some (generate_permalink B) } = none := by
    rw [violation]
    rw [if_neg (by
      intro hcon
      obtain ⟨b, hb, hbp⟩ := List.any_eq_true.1 hcon
      simp only [notSelf, Bool.and_eq_true, beq_iff_eq, bne_iff_ne, ne_eq,
        moveRow_project_id, moveRow_file_path] at hbp
      rcases mem_replaceRow_cases hb with rfl | ⟨hb2, hbne2⟩
      · exact hAB ((by simpa using hbp.2 : A = B))
      · rcases mem_replaceRow_cases hb2 with rfl | ⟨hbs, hbne1⟩
        · exact hbp.1.1 (by simp)
        · exact hpathB b hbs hbne2 (hbp.1.2.trans hApid) hbp.2)]
    rw [if_neg (by
      intro hcon
      obtain ⟨b, hb, hbp⟩ := List.any_eq_true.1 hcon
      simp only [notSelf, Bool.and_eq_true, beq_iff_eq, bne_iff_ne, ne_eq,
        moveRow_project_id, moveRow_permalink, Option.isSome_some] at hbp
      rcases mem_replaceRow_cases hb with rfl | ⟨hb2, hbne2⟩
      · exact hgp ((by simpa using hbp.2 : generate_permalink A = generate_permalink B))
      · rcases mem_replaceRow_cases hb2 with rfl | ⟨hbs, hbne1⟩
        · exact hbp.1.1.1 (by simp)
        · exact (hother b hbs hbne1 hbne2 (hbp.1.1.2.trans hApid)).2 hbp.2)]
    simp
  have hmv4 : update_move (fun _ => true) (replaceRow (replaceRow s eA.id
      { eA with file_path := freshPath s, permalink := (none : Option String) })
      eB.id { eB with file_path := A, permalink := some (generate_permalink A) })
      eA.id B (some (generate_permalink B))
      = .ok (replaceRow (replaceRow (replaceRow s eA.id
            { eA with file_path := freshPath s, permalink := (none : Option String) })
            eB.id { eB with file_path := A, permalink := some (generate_permalink A) })
          eA.id
          { ({ eA with file_path := freshPath s, permalink := (none : Option String) }
            : Row) with file_path := B, permalink := some (generate_permalink B) }) := by
    rw [update_move, hfid_r1_3]
    simp only []
    rw [hviol4]
  have hres : resolveAll (fun _ => true) pid ([((freshPath s : String), (B : String))].length)
      (replaceRow (replaceRow s eA.id
        { eA with file_path := freshPath s, permalink := (none : Option String) })
        eB.id { eB with file_path := A, permalink := some (generate_permalink A) })
      [(freshPath s, B)]
      = .ok (replaceRow (replaceRow (replaceRow s eA.id
            { eA with file_path := freshPath s, permalink := (none : Option String) })
            eB.id { eB with file_path := A, permalink := some (generate_permalink A) })
          eA.id
          { ({ eA with file_path := freshPath s, permalink := (none : Option String) }
            : Row) with file_path := B, permalink := some (generate_permalink B) }, []) := by
    simp only [List.length_cons, List.length_nil]
    rw [resolveAll, hres_found]
    simp only []
    rw [hfind_tmp3]
    simp only [moveRow_id]
    rw [hmv4]
    simp only []
    rw [resolveAll]
  have hsync : sync (fun _ => true) pid s [.move A B, .move B A]
      = .ok (replaceRow (replaceRow (replaceRow s eA.id
            { eA with file_path := freshPath s, permalink := (none : Option String) })
            eB.id { eB with file_path := A, permalink := some (generate_permalink A) })
          eA.id
          { ({ eA with file_path := freshPath s, permalink := (none : Option String) }
            : Row) with file_path := B, permalink := some (generate_permalink B) }) := by
    rw [sync, runEvents, applyEvent, hhm1]
    simp only [List.nil_append]
    rw [runEvents, applyEvent, hhm2]
    simp only []
    rw [runEvents]
    simp only []
    rw [hres]
  refine ⟨_, hsync, ?_, ?_, ?_⟩
  · refine ⟨{ ({ eA with file_path := freshPath s, permalink := (none : Option String) }
      : Row) with file_path := B, permalink := some (generate_permalink B) },
      mem_replaceRow_self hmemR1_3 (by simp), by simp, by simp⟩
  · refine ⟨{ eB with file_path := A, permalink := some (generate_permalink A) },
      mem_replaceRow_other hmemR2_3 (by simp [Ne.symm hid]), by simp, by simp⟩
  · rw [replaceRow_ids _ _ _ (by simp), replaceRow_ids _ _ _ (by simp),
      replaceRow_ids _ _ _ (by simp)]

/-- Second entity for the swap instantiation. -/
def rdB : RowData where
  project_id := 0
  file_path := "b.md"
  permalink := some "b"
  title := some "B"
  entity_type := some "note"
  entity_metadata := none
  content_type := some "text/markdown"
  checksum := some "c2"
  created_at := some 1
  updated_at := some 1

def rowB : Row := rdB.withId 1

def store2 : Store := ⟨2, [rowA, rowB], [], []⟩

/-- Concrete instantiation of C2: swapping "a.md" and "b.md" in one pass
preserves both ids. -/
theorem sync_swap_preserves_ids_witness :
    ∃ s', sync (fun _ => true) 0 store2 [.move "a.md" "b.md", .move "b.md" "a.md"]
        = .ok s'
      ∧ (∃ ra ∈ s'.entities, ra.id = rowA.id ∧ ra.file_path = "b.md")
      ∧ (∃ rb ∈ s'.entities, rb.id = rowB.id ∧ rb.file_path = "a.md")
      ∧ s'.entities.map (fun r => r.id) = store2.entities.map (fun r => r.id) :=
  sync_swap_preserves_ids 0 store2 rowA rowB "a.md" "b.md"
    (wf_of_wfB (by decide)) (by decide) (by decide) (by decide)
    (by decide) (by decide) (by decide) (by decide) (by decide) (by decide)

end BasicMemory
